import Mathlib

/-!
Shallow embedding of the configuration core of xocoder/wireguard-go:
the `wgcfg` codecs (`FromWgQuick`, `FromUAPI`, `ToUAPI`) and the device
reconciliation engine (`Reconfig`, `endpointsEqual`, `cidrsEqual`).

Go strings are modelled as `List Char`, byte arrays as `List Nat`,
machine integers as `Nat` (all parsed values are range-checked by the
code itself, so no modular arithmetic arises).  External collaborators
(`inet.af/netaddr`, DNS resolution, the opaque key decoder, the tunnel
name check) are supplied through an explicit environment record.
-/

deriving instance DecidableEq for Except

namespace WgProof

/-- Go strings, modelled as lists of characters. -/
abbrev GoStr := List Char

/-- Model of Go `unicode.IsSpace` restricted to the ASCII whitespace that
occurs in configuration files. -/
def isSpaceChar (c : Char) : Bool :=
  c == ' ' || c == '\t' || c == '\n' || c == '\r'

/-- Model of Go `strings.TrimSpace`. -/
def trimSpace (s : GoStr) : GoStr :=
  ((s.dropWhile isSpaceChar).reverse.dropWhile isSpaceChar).reverse

/-- Model of Go `strings.ToLower` (ASCII). -/
def toLowerStr (s : GoStr) : GoStr :=
  s.map Char.toLower

/-- Index of the first occurrence of a character, model of `strings.IndexByte`
(`none` plays the role of Go's `-1`). -/
def indexOfChar (c : Char) : GoStr → Option Nat
  | [] => none
  | a :: rest => if a = c then some 0 else (indexOfChar c rest).map (· + 1)

/-- Index of the last occurrence of a character, model of
`strings.LastIndexByte`. -/
def lastIndexOfChar (c : Char) (s : GoStr) : Option Nat :=
  match indexOfChar c s.reverse with
  | none => none
  | some j => some (s.length - 1 - j)

/-- Model of Go `strings.Split` with a one-character separator: empty
segments are kept and splitting the empty string yields one empty segment. -/
def splitOnChar (c : Char) : GoStr → List GoStr
  | [] => [[]]
  | a :: rest =>
    match splitOnChar c rest with
    | [] => [[]]
    | h :: t => if a = c then [] :: h :: t else (a :: h) :: t

/-- Model of Go `strings.Join` with a one-character separator. -/
def joinChar (c : Char) : List GoStr → GoStr
  | [] => []
  | [x] => x
  | x :: y :: rest => x ++ c :: joinChar c (y :: rest)

/-- Model of Go `net.JoinHostPort`: brackets the host iff it contains a colon. -/
def joinHostPort (host portStr : GoStr) : GoStr :=
  if host.contains ':' then '[' :: host ++ ']' :: ':' :: portStr
  else host ++ ':' :: portStr

theorem splitOnChar_ne_nil (c : Char) (s : GoStr) : splitOnChar c s ≠ [] := by
  cases s with
  | nil => simp [splitOnChar]
  | cons a rest =>
    simp only [splitOnChar]
    cases splitOnChar c rest with
    | nil => simp
    | cons h t =>
      by_cases hac : a = c <;> simp [hac]

theorem splitOnChar_append_cons (c : Char) (a : GoStr) (ha : c ∉ a) (rest : GoStr) :
    splitOnChar c (a ++ c :: rest) = a :: splitOnChar c rest := by
  induction a with
  | nil =>
    simp only [List.nil_append, splitOnChar]
    cases h : splitOnChar c rest with
    | nil => exact absurd h (splitOnChar_ne_nil c rest)
    | cons x t => simp
  | cons b bs ih =>
    have hbc : b ≠ c := by
      intro h; exact ha (h ▸ List.mem_cons_self b bs)
    have ih' := ih (fun h => ha (List.mem_cons_of_mem b h))
    simp only [List.cons_append, splitOnChar, List.append_eq]
    rw [ih']
    simp [hbc]

theorem splitOnChar_not_mem (c : Char) (s : GoStr) (h : c ∉ s) :
    splitOnChar c s = [s] := by
  induction s with
  | nil => simp [splitOnChar]
  | cons a rest ih =>
    have hac : a ≠ c := by intro hh; exact h (hh ▸ List.mem_cons_self a rest)
    have := ih (fun hh => h (List.mem_cons_of_mem a hh))
    simp [splitOnChar, this, hac]

theorem mem_splitOnChar_subset (c : Char) (s p : GoStr) (hp : p ∈ splitOnChar c s)
    (a : Char) (ha : a ∈ p) : a ∈ s := by
  induction s generalizing p with
  | nil =>
    simp [splitOnChar] at hp
    subst hp; cases ha
  | cons b rest ih =>
    simp only [splitOnChar] at hp
    cases hsplit : splitOnChar c rest with
    | nil => exact absurd hsplit (splitOnChar_ne_nil c rest)
    | cons h t =>
      rw [hsplit] at hp
      by_cases hbc : b = c
      · simp only [if_pos hbc, List.mem_cons] at hp
        rcases hp with hp | hp | hp
        · subst hp; cases ha
        · exact List.mem_cons_of_mem b
            (ih p (by rw [hsplit, hp]; exact List.mem_cons_self h t) ha)
        · exact List.mem_cons_of_mem b
            (ih p (by rw [hsplit]; exact List.mem_cons_of_mem h hp) ha)
      · simp only [if_neg hbc, List.mem_cons] at hp
        rcases hp with hp | hp
        · subst hp
          rcases List.mem_cons.mp ha with hab | hah
          · subst hab; exact List.mem_cons_self a rest
          · exact List.mem_cons_of_mem b
              (ih h (by rw [hsplit]; exact List.mem_cons_self h t) hah)
        · exact List.mem_cons_of_mem b
            (ih p (by rw [hsplit]; exact List.mem_cons_of_mem h hp) ha)

theorem mem_splitOnChar_not_mem (c : Char) (s p : GoStr) (hp : p ∈ splitOnChar c s) :
    c ∉ p := by
  induction s generalizing p with
  | nil =>
    simp [splitOnChar] at hp; subst hp; simp
  | cons b rest ih =>
    simp only [splitOnChar] at hp
    cases hsplit : splitOnChar c rest with
    | nil => exact absurd hsplit (splitOnChar_ne_nil c rest)
    | cons h t =>
      rw [hsplit] at hp
      by_cases hbc : b = c
      · simp only [if_pos hbc, List.mem_cons] at hp
        rcases hp with hp | hp | hp
        · subst hp; simp
        · exact ih p (by rw [hsplit, hp]; exact List.mem_cons_self h t)
        · exact ih p (by rw [hsplit]; exact List.mem_cons_of_mem h hp)
      · simp only [if_neg hbc, List.mem_cons] at hp
        rcases hp with hp | hp
        · subst hp
          intro hc
          rcases List.mem_cons.mp hc with hcb | hch
          · exact hbc hcb.symm
          · exact ih h (by rw [hsplit]; exact List.mem_cons_self h t) hch
        · exact ih p (by rw [hsplit]; exact List.mem_cons_of_mem h hp)

theorem joinChar_splitOnChar (c : Char) (s : GoStr) :
    joinChar c (splitOnChar c s) = s := by
  induction s with
  | nil => simp [splitOnChar, joinChar]
  | cons a rest ih =>
    simp only [splitOnChar]
    cases hsplit : splitOnChar c rest with
    | nil => exact absurd hsplit (splitOnChar_ne_nil c rest)
    | cons h t =>
      rw [hsplit] at ih
      by_cases hac : a = c
      · subst hac
        simp only [if_pos rfl, joinChar]
        cases t <;> simp_all [joinChar]
      · simp only [if_neg hac]
        cases t with
        | nil => simp_all [joinChar]
        | cons y ys =>
          simp only [joinChar] at ih ⊢
          rw [List.cons_append, ih]

/-! ## Decimal numbers (model of `strconv`) -/

/-- Decimal digit characters. -/
def isDigitChar (c : Char) : Bool := '0' ≤ c && c ≤ '9'

/-- Value of a decimal digit character. -/
def digitVal (c : Char) : Nat := c.toNat - 48

/-- Character of a decimal digit. -/
def digitChar (d : Nat) : Char := Char.ofNat (48 + d)

/-- Decimal value of a digit string (callers check `isDigitChar` first). -/
def decVal (s : GoStr) : Nat :=
  s.foldl (fun a c => 10 * a + digitVal c) 0

/-- Decimal representation of a natural number, model of Go `%d` /
`strconv.Itoa` on non-negative values. -/
def natToDec (n : Nat) : GoStr :=
  if h : n < 10 then [digitChar n]
  else natToDec (n / 10) ++ [digitChar (n % 10)]
  decreasing_by exact Nat.div_lt_self (by omega) (by omega)

/-- Model of `strconv.Atoi`: optional sign, then one or more digits.
The 64-bit overflow failure of Go is not modelled; every caller in the
sources range-checks the result against bounds far below 2^63, so the
observable accept/reject behaviour is unchanged. -/
def Atoi (s : GoStr) : Option Int :=
  match s with
  | [] => none
  | '-' :: rest =>
    if rest ≠ [] ∧ rest.all isDigitChar then some (-(decVal rest : Int)) else none
  | '+' :: rest =>
    if rest ≠ [] ∧ rest.all isDigitChar then some ((decVal rest : Int)) else none
  | _ =>
    if s.all isDigitChar then some ((decVal s : Int)) else none

/-- Model of `strconv.ParseUint(value, 10, bits)`: digits only, range-checked. -/
def parseUintDec (bits : Nat) (s : GoStr) : Option Nat :=
  if s ≠ [] ∧ s.all isDigitChar then
    let n := decVal s
    if n < 2 ^ bits then some n else none
  else none

theorem digitVal_digitChar (d : Nat) (h : d < 10) : digitVal (digitChar d) = d := by
  interval_cases d <;> rfl

theorem isDigitChar_digitChar (d : Nat) (h : d < 10) : isDigitChar (digitChar d) = true := by
  interval_cases d <;> rfl

theorem natToDec_all_digits (n : Nat) : (natToDec n).all isDigitChar = true := by
  induction n using Nat.strong_induction_on with
  | _ n ih =>
    rw [natToDec]
    by_cases h : n < 10
    · simp [h, isDigitChar_digitChar n h]
    · have hd : n / 10 < n := Nat.div_lt_self (by omega) (by omega)
      simp only [dif_neg h, List.all_append]
      rw [ih (n / 10) hd]
      simp [isDigitChar_digitChar (n % 10) (Nat.mod_lt n (by omega))]

theorem natToDec_ne_nil (n : Nat) : natToDec n ≠ [] := by
  rw [natToDec]
  by_cases h : n < 10 <;> simp [h]

theorem decVal_append (s t : GoStr) :
    decVal (s ++ t) = decVal t + decVal s * 10 ^ t.length := by
  induction t using List.reverseRecOn generalizing s with
  | nil => simp [decVal]
  | append_singleton ts c ih =>
    have h1 : decVal ((s ++ ts) ++ [c]) = 10 * decVal (s ++ ts) + digitVal c := by
      simp [decVal, List.foldl_append]
    have h2 : decVal (ts ++ [c]) = 10 * decVal ts + digitVal c := by
      simp [decVal, List.foldl_append]
    rw [← List.append_assoc, h1, h2, ih]
    simp only [List.length_append, List.length_singleton]
    ring

theorem decVal_natToDec (n : Nat) : decVal (natToDec n) = n := by
  induction n using Nat.strong_induction_on with
  | _ n ih =>
    rw [natToDec]
    by_cases h : n < 10
    · simp [decVal, h, digitVal_digitChar n h]
    · have hd : n / 10 < n := Nat.div_lt_self (by omega) (by omega)
      rw [dif_neg h, decVal_append, ih (n / 10) hd]
      have : decVal [digitChar (n % 10)] = n % 10 := by
        simp [decVal, digitVal_digitChar (n % 10) (Nat.mod_lt n (by omega))]
      rw [this]
      simp only [List.length_singleton, pow_one]
      omega

theorem parseUintDec_natToDec (bits n : Nat) (h : n < 2 ^ bits) :
    parseUintDec bits (natToDec n) = some n := by
  unfold parseUintDec
  rw [if_pos ⟨natToDec_ne_nil n, natToDec_all_digits n⟩]
  simp only [decVal_natToDec]
  rw [if_pos h]

/-! ## Hexadecimal (model of `encoding/hex`) -/

/-- Hex value of a character, `none` when it is not a hex digit. -/
def hexVal (c : Char) : Option Nat :=
  if '0' ≤ c ∧ c ≤ '9' then some (c.toNat - 48)
  else if 'a' ≤ c ∧ c ≤ 'f' then some (c.toNat - 97 + 10)
  else if 'A' ≤ c ∧ c ≤ 'F' then some (c.toNat - 65 + 10)
  else none

/-- Lower-case hex digit of a nibble. -/
def hexDigitChar (d : Nat) : Char :=
  if d < 10 then Char.ofNat (48 + d) else Char.ofNat (97 + d - 10)

/-- Model of `hex.DecodeString`: pairs of hex digits, failing on odd
length or a non-hex character. -/
def hexDecode : GoStr → Option (List Nat)
  | [] => some []
  | [_] => none
  | c1 :: c2 :: rest => do
    let h ← hexVal c1
    let l ← hexVal c2
    let tail ← hexDecode rest
    pure ((16 * h + l) :: tail)

/-- Modelled from the spec: the `HexString` methods of the key types (not
under `src/`) emit the lower-case hex of the key bytes ("`private_key`
(hex)"). -/
def hexEncode (bs : List Nat) : GoStr :=
  bs.flatMap (fun b => [hexDigitChar (b / 16), hexDigitChar (b % 16)])

theorem hexVal_hexDigitChar (d : Nat) (h : d < 16) : hexVal (hexDigitChar d) = some d := by
  interval_cases d <;> rfl

theorem hexDecode_hexEncode (bs : List Nat) (h : ∀ b ∈ bs, b < 256) :
    hexDecode (hexEncode bs) = some bs := by
  induction bs with
  | nil => rfl
  | cons b rest ih =>
    have hb : b < 256 := h b (List.mem_cons_self b rest)
    have hhi : b / 16 < 16 := by omega
    have hlo : b % 16 < 16 := Nat.mod_lt b (by omega)
    have he : hexEncode (b :: rest) =
        hexDigitChar (b / 16) :: hexDigitChar (b % 16) :: hexEncode rest := rfl
    rw [he]
    simp only [hexDecode]
    rw [hexVal_hexDigitChar _ hhi, hexVal_hexDigitChar _ hlo,
      ih (fun x hx => h x (List.mem_cons_of_mem b hx))]
    simp only [Option.bind_eq_bind, Option.some_bind, Option.pure_def]
    congr 1
    congr 1
    omega

theorem hexEncode_all_hex (bs : List Nat) (hbs : ∀ b ∈ bs, b < 256) (c : Char)
    (hc : c ∈ hexEncode bs) : hexVal c ≠ none := by
  induction bs with
  | nil => cases hc
  | cons b rest ih =>
    have hb : b < 256 := hbs b (List.mem_cons_self b rest)
    have he : hexEncode (b :: rest) =
        hexDigitChar (b / 16) :: hexDigitChar (b % 16) :: hexEncode rest := rfl
    rw [he] at hc
    have hdig : ∀ d : Nat, d < 16 → hexVal (hexDigitChar d) ≠ none := by
      intro d hd
      rw [hexVal_hexDigitChar d hd]
      simp
    rcases List.mem_cons.mp hc with hc | hc
    · subst hc; exact hdig _ (by omega)
    · rcases List.mem_cons.mp hc with hc | hc
      · subst hc; exact hdig _ (Nat.mod_lt b (by omega))
      · exact ih (fun x hx => hbs x (List.mem_cons_of_mem b hx)) hc

/-! ## Keys (`wgcfg.Key`, `wgcfg.PrivateKey`, `wgcfg.SymmetricKey`)

The key types themselves live in a `wgcfg` source file that is not part
of the sources under `src/`; they are modelled from the spec as opaque
fixed-size (32) byte values whose zero value means unset. -/

/-- A key: a byte sequence (the parsers enforce length 32). -/
abbrev Key := List Nat

/-- Go `KeySize`. -/
def KeySize : Nat := 32

/-- The zero value of a 32-byte key. -/
def zeroKey : Key := List.replicate 32 0

/-- Modelled from the spec: `Key.IsZero` compares against the zero value
(the spec's "zero value meaning unset"). -/
def Key.IsZero (k : Key) : Bool := k == zeroKey

/-! ## External collaborator model

`inet.af/netaddr` values and the name-resolution and key-decoding
collaborators are external to the repository; they are modelled as an
explicit environment of functions, faithful to the collaborator
contracts stated by the spec (section 6). -/

/-- Model of `inet.af/netaddr.IPPrefix`: an opaque value type with
decidable equality (the reconciliation engine only ever compares these
values and hands them to the routing trie). -/
structure Cidr where
  ip : Nat
  is4 : Bool
  bits : Nat
deriving DecidableEq

/-- Model of `inet.af/netaddr.IP` (used only for DNS entries). -/
structure IPAddr where
  v : Nat
  is4 : Bool
deriving DecidableEq

/-- Model of a Go `net.IP` as returned by `net.LookupIP`: its display
string and whether `To4()` is non-nil. -/
structure GoIP where
  str : GoStr
  is4 : Bool
deriving DecidableEq

/-- Parse errors (`wgcfg.ParseError`); other error values produced with
`fmt.Errorf` are modelled with the same shape (reason, offending text). -/
structure ParseError where
  why : GoStr
  offender : GoStr
deriving DecidableEq

/-- Modelled from the spec: the external collaborators used by the codecs
that are not part of the sources under `src/` — the tunnel-name validity
check, the opaque key decoder `ParseKey` ("opaque key decode"), the
`inet.af/netaddr` parsers and printer for prefixes and addresses, the
`net.LookupIP` resolver, and `net.ParseIP` validity (used by
`parseEndpoint` for bracketed hosts; Go's `net.ParseIP` never returns a
non-nil value of length other than 16, so a boolean suffices). -/
structure Env where
  tunnelNameIsValid : GoStr → Bool
  parseKey : GoStr → Except ParseError Key
  parseCidr : GoStr → Except ParseError Cidr
  parseIP : GoStr → Option IPAddr
  printCidr : Cidr → GoStr
  lookupIP : GoStr → Except ParseError (List GoIP)
  isIP : GoStr → Bool

/-! ## `wgcfg`: configuration model and codecs (src/wgcfg/config.go, parser.go) -/

namespace wgcfg

/-- `wgcfg.Peer` (src/wgcfg/config.go): field defaults are the Go zero
values. `Endpoints` is the comma-separated host/port string. -/
structure Peer where
  PublicKey : Key := zeroKey
  PresharedKey : Key := zeroKey
  AllowedIPs : List Cidr := []
  Endpoints : GoStr := []
  PersistentKeepalive : Nat := 0
deriving DecidableEq

/-- `wgcfg.Config` (src/wgcfg/config.go): field defaults are the Go zero
values. -/
structure Config where
  Name : GoStr := []
  PrivateKey : Key := zeroKey
  Addresses : List Cidr := []
  ListenPort : Nat := 0
  MTU : Nat := 0
  DNS : List IPAddr := []
  Peers : List Peer := []
deriving DecidableEq

/-- `parsePort` (src/wgcfg/parser.go). -/
def parsePort (s : GoStr) : Except ParseError Nat :=
  match Atoi s with
  | none => .error ⟨"invalid syntax".toList, s⟩
  | some m =>
    if m < 0 ∨ m > 65535 then .error ⟨"Invalid port".toList, s⟩
    else .ok m.toNat

/-- `parseMTU` (src/wgcfg/parser.go). -/
def parseMTU (s : GoStr) : Except ParseError Nat :=
  match Atoi s with
  | none => .error ⟨"invalid syntax".toList, s⟩
  | some m =>
    if m < 576 ∨ m > 65535 then .error ⟨"Invalid MTU".toList, s⟩
    else .ok m.toNat

/-- `parsePersistentKeepalive` (src/wgcfg/parser.go): the literal `off`
maps to 0. -/
def parsePersistentKeepalive (s : GoStr) : Except ParseError Nat :=
  if s = ("off").toList then .ok 0
  else
    match Atoi s with
    | none => .error ⟨"invalid syntax".toList, s⟩
    | some m =>
      if m < 0 ∨ m > 65535 then .error ⟨"Invalid persistent keepalive".toList, s⟩
      else .ok m.toNat

/-- `parseKeyHex` (src/wgcfg/parser.go): hex decode plus exact length check. -/
def parseKeyHex (s : GoStr) : Except ParseError Key :=
  match hexDecode s with
  | none => .error ⟨"Invalid key: encoding error".toList, s⟩
  | some k =>
    if k.length ≠ KeySize then .error ⟨"Keys must decode to exactly 32 bytes".toList, s⟩
    else .ok k

/-- `parseBytesOrStamp` (src/wgcfg/parser.go). -/
def parseBytesOrStamp (s : GoStr) : Except ParseError Nat :=
  match parseUintDec 64 s with
  | none => .error ⟨"Number must be a number between 0 and 2^64-1".toList, s⟩
  | some b => .ok b

/-- `parseEndpoint` (src/wgcfg/parser.go): split host from port at the
last colon; bracketed hosts must enclose a parseable IP. -/
def parseEndpoint (env : Env) (s : GoStr) : Except ParseError (GoStr × Nat) :=
  match lastIndexOfChar ':' s with
  | none => .error ⟨"Missing port from endpoint".toList, s⟩
  | some i =>
    let host := s.take i
    let portStr := s.drop (i + 1)
    if host.length < 1 then .error ⟨"Invalid endpoint host".toList, host⟩
    else
      match parsePort portStr with
      | .error e => .error e
      | .ok port =>
        let hostColonPositive : Bool :=
          match indexOfChar ':' host with
          | some j => decide (0 < j)
          | none => false
        if host.head? = some '[' ∨ host.getLast? = some ']' ∨ hostColonPositive then
          if host.length > 3 ∧ host.head? = some '[' ∧ host.getLast? = some ']' ∧
              hostColonPositive then
            if env.isIP (host.drop 1).dropLast then .ok ((host.drop 1).dropLast, port)
            else .error ⟨"Brackets must contain an IPv6 address".toList, host⟩
          else .error ⟨"Brackets must contain an IPv6 address".toList, host⟩
        else .ok (host, port)

/-- The loop body of `validateEndpoints` over the comma-split entries. -/
def validateEndpointsList (env : Env) : List GoStr → Except ParseError Unit
  | [] => .ok ()
  | v :: rest =>
    match parseEndpoint env v with
    | .error e => .error e
    | .ok _ => validateEndpointsList env rest

/-- `validateEndpoints` (src/wgcfg/parser.go). -/
def validateEndpoints (env : Env) (s : GoStr) : Except ParseError Unit :=
  validateEndpointsList env (splitOnChar ',' s)

/-- The loop body of `splitList` (src/wgcfg/parser.go): trims each
comma-separated entry, rejecting empty entries. -/
def splitListGo (env_s : GoStr) : List GoStr → Except ParseError (List GoStr)
  | [] => .ok []
  | v :: rest =>
    let trim := trimSpace v
    if trim.length = 0 then .error ⟨"Two commas in a row".toList, env_s⟩
    else
      match splitListGo env_s rest with
      | .error e => .error e
      | .ok out => .ok (trim :: out)

/-- `splitList` (src/wgcfg/parser.go). -/
def splitList (s : GoStr) : Except ParseError (List GoStr) :=
  splitListGo s (splitOnChar ',' s)

/-- `parserState` (src/wgcfg/parser.go). -/
inductive ParserState
  | inInterfaceSection
  | inPeerSection
  | notInASection
deriving DecidableEq

/-- `Config.maybeAddPeer` (src/wgcfg/parser.go). -/
def Config.maybeAddPeer (c : Config) : Option Peer → Config
  | some p => {c with Peers := c.Peers ++ [p]}
  | none => c

/-- The `address`/`allowedips` inner loop: parse each entry as a prefix. -/
def parseCidrList (env : Env) : List GoStr → Except ParseError (List Cidr)
  | [] => .ok []
  | a :: rest =>
    match env.parseCidr a with
    | .error e => .error e
    | .ok c =>
      match parseCidrList env rest with
      | .error e => .error e
      | .ok cs => .ok (c :: cs)

/-- The `dns` inner loop: parse each entry as a bare IP. -/
def parseIPList (env : Env) : List GoStr → Except ParseError (List IPAddr)
  | [] => .ok []
  | a :: rest =>
    match env.parseIP a with
    | none => .error ⟨"Invalid IP address".toList, a⟩
    | some ip =>
      match parseIPList env rest with
      | .error e => .error e
      | .ok ips => .ok (ip :: ips)

/-- The `[Interface]` key switch of `FromWgQuick` (src/wgcfg/parser.go,
lines 193-240), acting on the config being built and the
`sawPrivateKey` flag. -/
def handleInterfaceKey (env : Env) (conf : Config) (sawPrivateKey : Bool)
    (key val : GoStr) : Except ParseError (Config × Bool) :=
  if key = ("privatekey").toList then
    match env.parseKey val with
    | .error e => .error e
    | .ok k => .ok ({conf with PrivateKey := k}, true)
  else if key = ("listenport").toList then
    match parsePort val with
    | .error e => .error e
    | .ok p => .ok ({conf with ListenPort := p}, sawPrivateKey)
  else if key = ("mtu").toList then
    match parseMTU val with
    | .error e => .error e
    | .ok m => .ok ({conf with MTU := m}, sawPrivateKey)
  else if key = ("address").toList then
    match splitList val with
    | .error e => .error e
    | .ok addresses =>
      match parseCidrList env addresses with
      | .error e => .error e
      | .ok as => .ok ({conf with Addresses := conf.Addresses ++ as}, sawPrivateKey)
  else if key = ("dns").toList then
    match splitList val with
    | .error e => .error e
    | .ok addresses =>
      match parseIPList env addresses with
      | .error e => .error e
      | .ok ips => .ok ({conf with DNS := conf.DNS ++ ips}, sawPrivateKey)
  else .error ⟨"Invalid key for [Interface] section".toList, key⟩

/-- The `[Peer]` key switch of `FromWgQuick` (src/wgcfg/parser.go,
lines 241-282), acting on the peer being built. -/
def handlePeerQuickKey (env : Env) (peer : Peer) (key val : GoStr) :
    Except ParseError Peer :=
  if key = ("publickey").toList then
    match env.parseKey val with
    | .error e => .error e
    | .ok k => .ok {peer with PublicKey := k}
  else if key = ("presharedkey").toList then
    match env.parseKey val with
    | .error e => .error e
    | .ok k => .ok {peer with PresharedKey := k}
  else if key = ("allowedips").toList then
    match splitList val with
    | .error e => .error e
    | .ok addresses =>
      match parseCidrList env addresses with
      | .error e => .error e
      | .ok as => .ok {peer with AllowedIPs := peer.AllowedIPs ++ as}
  else if key = ("persistentkeepalive").toList then
    match parsePersistentKeepalive val with
    | .error e => .error e
    | .ok p => .ok {peer with PersistentKeepalive := p}
  else if key = ("endpoint").toList then
    match validateEndpoints env val with
    | .error e => .error e
    | .ok _ => .ok {peer with Endpoints := val}
  else .error ⟨"Invalid key for [Peer] section".toList, key⟩

/-- The line loop of `FromWgQuick` (src/wgcfg/parser.go, lines 161-283):
strip comments, trim, dispatch on section headers and `key = value`
lines, threading (state, config, sawPrivateKey, current peer).  The
`none` case inside the peer section is unreachable (the state only
becomes `inPeerSection` together with a fresh peer); in Go it would be a
nil dereference. -/
def fromWgQuickLoop (env : Env) :
    List GoStr → ParserState → Config → Bool → Option Peer →
    Except ParseError (Config × Bool × Option Peer)
  | [], _, conf, sawPK, peer => .ok (conf, sawPK, peer)
  | rawLine :: rest, st, conf, sawPK, peer =>
    let line := trimSpace (rawLine.takeWhile (· ≠ '#'))
    let lineLower := toLowerStr line
    if line.length = 0 then fromWgQuickLoop env rest st conf sawPK peer
    else if lineLower = ("[interface]").toList then
      fromWgQuickLoop env rest .inInterfaceSection (conf.maybeAddPeer peer) sawPK peer
    else if lineLower = ("[peer]").toList then
      fromWgQuickLoop env rest .inPeerSection (conf.maybeAddPeer peer) sawPK (some {})
    else if st = .notInASection then
      .error ⟨"Line must occur in a section".toList, line⟩
    else
      match indexOfChar '=' line with
      | none => .error ⟨"Invalid config key is missing an equals separator".toList, line⟩
      | some equals =>
        let key := trimSpace (lineLower.take equals)
        let val := trimSpace (line.drop (equals + 1))
        if val.length = 0 then .error ⟨"Key must have a value".toList, line⟩
        else if st = .inInterfaceSection then
          match handleInterfaceKey env conf sawPK key val with
          | .error e => .error e
          | .ok (conf', sawPK') => fromWgQuickLoop env rest st conf' sawPK' peer
        else
          match peer with
          | none => .error ⟨"no current peer".toList, line⟩
          | some p =>
            match handlePeerQuickKey env p key val with
            | .error e => .error e
            | .ok p' => fromWgQuickLoop env rest st conf sawPK (some p')

/-- `FromWgQuick` (src/wgcfg/parser.go, lines 152-296): validate the
tunnel name, run the line loop over the newline-split input, flush the
final in-progress peer, then require a private key and non-zero peer
public keys. -/
def FromWgQuick (env : Env) (s : GoStr) (name : GoStr) : Except ParseError Config :=
  if ¬ env.tunnelNameIsValid name then .error ⟨"Tunnel name is not valid".toList, name⟩
  else
    match fromWgQuickLoop env (splitOnChar '\n' s) .notInASection { Name := name } false none with
    | .error e => .error e
    | .ok (conf, sawPrivateKey, peer) =>
      let conf := conf.maybeAddPeer peer
      if ¬ sawPrivateKey then
        .error ⟨"An interface must have a private key".toList, ("[none specified]").toList⟩
      else if conf.Peers.any (fun p => p.PublicKey.IsZero) then
        .error ⟨"All peers must have public keys".toList, ("[none specified]").toList⟩
      else .ok conf

/-- `Config.handleDeviceLine` (src/wgcfg/parser.go, lines 350-371). -/
def handleDeviceLine (cfg : Config) (key value : GoStr) : Except ParseError Config :=
  if key = ("private_key").toList then
    match parseKeyHex value with
    | .error e => .error e
    | .ok k => .ok {cfg with PrivateKey := k}
  else if key = ("listen_port").toList then
    match parseUintDec 16 value with
    | none => .error ⟨"failed to parse listen_port".toList, value⟩
    | some port => .ok {cfg with ListenPort := port}
  else if key = ("fwmark").toList then .ok cfg
  else .error ⟨"unexpected IpcGetOperation key".toList, key⟩

/-- `Config.handlePublicKeyLine` (src/wgcfg/parser.go, lines 373-382):
appends a fresh peer carrying the decoded key; the current-peer pointer
is the last element of `Peers`. -/
def handlePublicKeyLine (cfg : Config) (value : GoStr) : Except ParseError Config :=
  match parseKeyHex value with
  | .error e => .error e
  | .ok k => .ok {cfg with Peers := cfg.Peers ++ [{ PublicKey := k }]}

/-- Mutation through the current-peer pointer: Go's `peer` points at the
last element of `cfg.Peers`. -/
def updateLastPeer (f : Peer → Peer) : List Peer → List Peer
  | [] => []
  | [p] => [f p]
  | p :: rest => p :: updateLastPeer f rest

/-- `Config.handlePeerLine` (src/wgcfg/parser.go, lines 384-420), with
the peer pointer modelled as the last element of `Peers`. -/
def handlePeerLine (env : Env) (cfg : Config) (key value : GoStr) :
    Except ParseError Config :=
  if key = ("preshared_key").toList then
    match parseKeyHex value with
    | .error e => .error e
    | .ok k => .ok {cfg with Peers := updateLastPeer (fun p => {p with PresharedKey := k}) cfg.Peers}
  else if key = ("endpoint").toList then
    match validateEndpoints env value with
    | .error e => .error e
    | .ok _ => .ok {cfg with Peers := updateLastPeer (fun p => {p with Endpoints := value}) cfg.Peers}
  else if key = ("persistent_keepalive_interval").toList then
    match parseUintDec 16 value with
    | none => .error ⟨"failed to parse persistent_keepalive_interval".toList, value⟩
    | some n => .ok {cfg with Peers := updateLastPeer (fun p => {p with PersistentKeepalive := n}) cfg.Peers}
  else if key = ("allowed_ip").toList then
    match env.parseCidr value with
    | .error e => .error e
    | .ok ipp => .ok {cfg with Peers := updateLastPeer (fun p => {p with AllowedIPs := p.AllowedIPs ++ [ipp]}) cfg.Peers}
  else if key = ("protocol_version").toList then
    if value = ("1").toList then .ok cfg
    else .error ⟨"invalid protocol version".toList, value⟩
  else if key = ("last_handshake_time_sec").toList ∨ key = ("last_handshake_time_nsec").toList ∨
      key = ("tx_bytes").toList ∨ key = ("rx_bytes").toList then .ok cfg
  else .error ⟨"unexpected IpcGetOperation key".toList, key⟩

/-- The scanner loop of `FromUAPI` (src/wgcfg/parser.go, lines 307-341):
skip blank lines, require exactly two `=`-separated parts, dispatch on
`public_key` / device mode / peer mode. -/
def fromUAPILoop (env : Env) : List GoStr → Config → Bool → Except ParseError Config
  | [], cfg, _ => .ok cfg
  | line :: rest, cfg, deviceConfig =>
    if line.length = 0 then fromUAPILoop env rest cfg deviceConfig
    else
      match splitOnChar '=' line with
      | [key, value] =>
        if key = ("public_key").toList then
          match handlePublicKeyLine cfg value with
          | .error e => .error e
          | .ok cfg' => fromUAPILoop env rest cfg' false
        else if deviceConfig then
          match handleDeviceLine cfg key value with
          | .error e => .error e
          | .ok cfg' => fromUAPILoop env rest cfg' deviceConfig
        else
          match handlePeerLine env cfg key value with
          | .error e => .error e
          | .ok cfg' => fromUAPILoop env rest cfg' deviceConfig
      | _ => .error ⟨"failed to parse line, want 2 =-separated parts".toList, line⟩

/-- `FromUAPI` (src/wgcfg/parser.go, lines 301-348): the reader's lines
are the newline-split input. -/
def FromUAPI (env : Env) (r : GoStr) : Except ParseError Config :=
  fromUAPILoop env (splitOnChar '\n' r) {} true

/-! ### `ToUAPI` (src/unnamed/part_000) -/

/-- The IP selection of `ToUAPI`'s resolution loop: first IPv4 address if
any, otherwise the first address of any family. -/
def pickIP (ips : List GoIP) : Option GoIP :=
  match ips.find? (fun ip => ip.is4) with
  | some ip => some ip
  | none => ips.head?

/-- One iteration of `ToUAPI`'s endpoint loop (src/unnamed/part_000,
lines 39-62): parse the candidate, resolve the host, pick an address and
join it back with the port. -/
def resolveEndpointRep (env : Env) (ep : GoStr) : Except ParseError GoStr :=
  match parseEndpoint env ep with
  | .error e => .error e
  | .ok (host, port) =>
    match env.lookupIP host with
    | .error e => .error e
    | .ok ips =>
      match pickIP ips with
      | none => .error ⟨"unable to resolve IP address of endpoint".toList, host⟩
      | some ip => .ok (joinHostPort ip.str (natToDec port))

/-- The `reps` accumulation loop of `ToUAPI` (appending one resolved
representation per candidate). -/
def repsLoop (env : Env) : List GoStr → List GoStr → Except ParseError (List GoStr)
  | [], reps => .ok reps
  | ep :: rest, reps =>
    match resolveEndpointRep env ep with
    | .error e => .error e
    | .ok r => repsLoop env rest (reps ++ [r])

/-- The `allowed_ip` emission loop of `ToUAPI`, appending to the output
builder. -/
def allowedIPsLines (env : Env) (out : GoStr) : List Cidr → GoStr
  | [] => out
  | a :: rest =>
    allowedIPsLines env (out ++ ("allowed_ip=").toList ++ env.printCidr a ++ ['\n']) rest

/-- The per-peer loop of `ToUAPI` (src/unnamed/part_000, lines 25-70),
appending to the output builder in the emission order of the source. -/
def toUAPIPeersLoop (env : Env) : List Peer → GoStr → Except ParseError GoStr
  | [], output => .ok output
  | peer :: rest, output =>
    let output := output ++ ("public_key=").toList ++ hexEncode peer.PublicKey ++ ['\n']
    let output := output ++ ("protocol_version=1").toList ++ ['\n']
    let output := output ++ ("replace_allowed_ips=true").toList ++ ['\n']
    let output := if peer.AllowedIPs.length > 0 then allowedIPsLines env output peer.AllowedIPs
      else output
    match repsLoop env (if peer.Endpoints = [] then [] else splitOnChar ',' peer.Endpoints) [] with
    | .error e => .error e
    | .ok reps =>
      let output := output ++ ("endpoint=").toList ++ joinChar ',' reps ++ ['\n']
      let output := output ++ ("persistent_keepalive_interval=").toList ++
        natToDec peer.PersistentKeepalive ++ ['\n']
      toUAPIPeersLoop env rest output

/-- `Config.ToUAPI` (src/unnamed/part_000, lines 15-72). -/
def ToUAPI (env : Env) (conf : Config) : Except ParseError GoStr :=
  let output := ("private_key=").toList ++ hexEncode conf.PrivateKey ++ ['\n']
  let output := if conf.ListenPort > 0 then
      output ++ ("listen_port=").toList ++ natToDec conf.ListenPort ++ ['\n']
    else output
  let output := output ++ ("replace_peers=true").toList ++ ['\n']
  toUAPIPeersLoop env conf.Peers output

/-! ### Structured characterization of the `ToUAPI` output -/

/-- Error-propagating resolution of all endpoint candidates, in order. -/
def resolveReps (env : Env) : List GoStr → Except ParseError (List GoStr)
  | [] => .ok []
  | ep :: rest =>
    match resolveEndpointRep env ep with
    | .error e => .error e
    | .ok r =>
      match resolveReps env rest with
      | .error e => .error e
      | .ok rs => .ok (r :: rs)

/-- The text `ToUAPI` emits for one peer, written as the explicit
in-order concatenation of its lines: `public_key`, `protocol_version=1`,
`replace_allowed_ips=true`, one `allowed_ip` per route, a single comma
joined `endpoint` line, and last the `persistent_keepalive_interval`
line. -/
def uapiPeerBlock (env : Env) (peer : Peer) : Except ParseError GoStr :=
  match resolveReps env (if peer.Endpoints = [] then [] else splitOnChar ',' peer.Endpoints) with
  | .error e => .error e
  | .ok reps => .ok (
      ("public_key=").toList ++ hexEncode peer.PublicKey ++ ['\n'] ++
      ("protocol_version=1").toList ++ ['\n'] ++
      ("replace_allowed_ips=true").toList ++ ['\n'] ++
      (peer.AllowedIPs.map (fun a => ("allowed_ip=").toList ++ env.printCidr a ++ ['\n'])).flatten ++
      ("endpoint=").toList ++ joinChar ',' reps ++ ['\n'] ++
      ("persistent_keepalive_interval=").toList ++ natToDec peer.PersistentKeepalive ++ ['\n'])

/-- Concatenation of all peer blocks, in the peer sequence's order. -/
def uapiPeerBlocks (env : Env) : List Peer → Except ParseError GoStr
  | [] => .ok []
  | p :: rest =>
    match uapiPeerBlock env p with
    | .error e => .error e
    | .ok b =>
      match uapiPeerBlocks env rest with
      | .error e => .error e
      | .ok bs => .ok (b ++ bs)

/-- The device-level part of the `ToUAPI` output: `private_key`, then
`listen_port` only when the port is positive, then `replace_peers=true`. -/
def uapiDeviceHeader (conf : Config) : GoStr :=
  ("private_key=").toList ++ hexEncode conf.PrivateKey ++ ['\n'] ++
  (if conf.ListenPort > 0 then ("listen_port=").toList ++ natToDec conf.ListenPort ++ ['\n']
   else []) ++
  ("replace_peers=true").toList ++ ['\n']

theorem allowedIPsLines_eq (env : Env) (l : List Cidr) : ∀ out : GoStr,
    allowedIPsLines env out l =
      out ++ (l.map (fun a => ("allowed_ip=").toList ++ env.printCidr a ++ ['\n'])).flatten := by
  induction l with
  | nil => intro out; simp [allowedIPsLines]
  | cons a rest ih =>
    intro out
    rw [allowedIPsLines, ih]
    simp [List.append_assoc]

theorem repsLoop_eq (env : Env) (l : List GoStr) : ∀ acc : List GoStr,
    repsLoop env l acc =
      match resolveReps env l with
      | .error e => .error e
      | .ok rs => .ok (acc ++ rs) := by
  induction l with
  | nil => intro acc; simp [repsLoop, resolveReps]
  | cons ep rest ih =>
    intro acc
    rw [repsLoop, resolveReps]
    cases resolveEndpointRep env ep with
    | error e => rfl
    | ok r =>
      dsimp only
      rw [ih]
      cases resolveReps env rest with
      | error e => rfl
      | ok rs => simp

theorem toUAPIPeersLoop_eq (env : Env) (ps : List Peer) : ∀ out : GoStr,
    toUAPIPeersLoop env ps out =
      match uapiPeerBlocks env ps with
      | .error e => .error e
      | .ok body => .ok (out ++ body) := by
  induction ps with
  | nil => intro out; simp [toUAPIPeersLoop, uapiPeerBlocks]
  | cons peer rest ih =>
    intro out
    rw [toUAPIPeersLoop, uapiPeerBlocks, uapiPeerBlock]
    have hACase : ∀ o : GoStr,
        (if peer.AllowedIPs.length > 0 then allowedIPsLines env o peer.AllowedIPs else o) =
          allowedIPsLines env o peer.AllowedIPs := by
      intro o
      cases hl : peer.AllowedIPs with
      | nil => simp [allowedIPsLines]
      | cons a as => simp
    rw [hACase, allowedIPsLines_eq, repsLoop_eq]
    cases resolveReps env (if peer.Endpoints = [] then [] else splitOnChar ',' peer.Endpoints) with
    | error e => rfl
    | ok reps =>
      dsimp only
      rw [List.nil_append, ih]
      cases uapiPeerBlocks env rest with
      | error e => rfl
      | ok bs => simp [List.append_assoc]

/-- Shared shape lemma: the full `ToUAPI` output is the device header
followed by the peer blocks. -/
theorem toUAPI_shape (env : Env) (conf : Config) :
    ToUAPI env conf =
      match uapiPeerBlocks env conf.Peers with
      | .error e => .error e
      | .ok body => .ok (uapiDeviceHeader conf ++ body) := by
  rw [ToUAPI, toUAPIPeersLoop_eq, uapiDeviceHeader]
  cases uapiPeerBlocks env conf.Peers with
  | error e => rfl
  | ok body =>
    by_cases h : conf.ListenPort > 0 <;> simp [h, List.append_assoc]

end wgcfg

/-! ## Device reconciliation engine (src/device/config.go) -/

namespace device

/-- `wgcfg.Endpoint` in the `wgcfg` version the device code compiles
against (the device test in src/unnamed/part_001 constructs
`[]wgcfg.Endpoint{{Host: ..., Port: ...}}`): a structured host/port
pair, compared by value in `endpointsEqual`. -/
structure Endpoint where
  Host : GoStr
  Port : Nat
deriving DecidableEq

/-- Modelled from the spec: `wgcfg.Endpoint.String` (not under `src/`)
renders the endpoint in the shared host:port syntax of section 4.1
(bracketed when the host contains a colon). -/
def Endpoint.render (e : Endpoint) : GoStr :=
  joinHostPort e.Host (natToDec e.Port)

/-- `wgcfg.Peer` as consumed by `device.Reconfig` (structured endpoint
list). Field defaults are the Go zero values. -/
structure CfgPeer where
  PublicKey : Key := zeroKey
  PresharedKey : Key := zeroKey
  AllowedIPs : List Cidr := []
  Endpoints : List Endpoint := []
  PersistentKeepalive : Nat := 0
deriving DecidableEq

/-- `wgcfg.Config` as consumed by `device.Reconfig` (only the fields the
engine reads). -/
structure Cfg where
  PrivateKey : Key := zeroKey
  ListenPort : Nat := 0
  Peers : List CfgPeer := []
deriving DecidableEq

/-- `endpointsEqual` (src/device/config.go, lines 190-217): equal
lengths, then an exact positional pass, then a one-directional
set-containment fallback (`y`'s elements among `x`'s). -/
def endpointsEqual (x y : List Endpoint) : Bool :=
  if x.length ≠ y.length then false
  else if x == y then true
  else y.all (fun ep => x.contains ep)

/-- `cidrsEqual` (src/device/config.go, lines 219-246): the same
algorithm over allowed-IP prefixes. -/
def cidrsEqual (x y : List Cidr) : Bool :=
  if x.length ≠ y.length then false
  else if x == y then true
  else y.all (fun v => x.contains v)

/-- Modelled from the spec: the endpoint object built by
`device.createEndpoint` (not under `src/`); the engine observes only its
`Addrs()` list of resolved endpoints. -/
structure EndpointObj where
  addrs : List Endpoint
deriving DecidableEq

/-- The per-peer live state touched by `Reconfig`: the handshake's
preshared key and last-sent-handshake time, the atomically stored
keepalive interval, the endpoint object and the recorded allowed-IP
list. Field defaults are the state of a freshly created peer. -/
structure DPeer where
  presharedKey : Key := zeroKey
  persistentKeepaliveInterval : Nat := 0
  endpoint : Option EndpointObj := none
  allowedIPs : List Cidr := []
  lastSentHandshake : Int := 0
deriving DecidableEq

/-- The live device state touched by `Config`/`Reconfig`: the peer table
(public key to peer), the static identity, the bind port, the up flag,
and the shared allowed-IP trie modelled through its collaborator
contract as the list of (prefix, owner) entries. -/
structure Device where
  peers : List (Key × DPeer) := []
  privateKey : Key := zeroKey
  port : Nat := 0
  isUp : Bool := false
  trie : List (Cidr × Key) := []
deriving DecidableEq

/-- `RekeyTimeout` (a positive constant in the device package; its exact
magnitude is irrelevant to the engine's logic). -/
def RekeyTimeout : Int := 5

/-- Modelled from the spec: outcomes of the fallible collaborator
operations `Reconfig` relies on that live in device files not under
`src/` — `SetPrivateKey` (identity rotation), `BindUpdate` (rebind,
failure reported as the distinguished port-in-use error), `NewPeer`
(peer creation) and `createEndpoint` (endpoint construction from the
joined candidate string). -/
structure DeviceEnv where
  setPrivateKeyOk : Key → Bool
  bindOk : Nat → Bool
  newPeerOk : Key → Bool
  createEndpoint : Key → GoStr → Option EndpointObj

/-- Reconciliation errors, named by their origin site. -/
inductive RErr
  | setPrivateKeyFailed (k : Key)
  | portInUse
  | newPeerFailed (k : Key)
  | endpointFailed (k : Key) (s : GoStr)
deriving DecidableEq

/-- Association lookup in the peer table (`device.LookupPeer`). -/
def assocFind : List (Key × DPeer) → Key → Option DPeer
  | [], _ => none
  | kv :: rest, k => if kv.1 = k then some kv.2 else assocFind rest k

/-- `device.LookupPeer`. -/
def lookupPeer (d : Device) (k : Key) : Option DPeer :=
  assocFind d.peers k

/-- In-place mutation of the peer with the given key (Go mutates the
peer object through its pointer). -/
def updatePeer (d : Device) (k : Key) (f : DPeer → DPeer) : Device :=
  {d with peers := d.peers.map (fun kv => if kv.1 = k then (kv.1, f kv.2) else kv)}

/-- Modelled from the spec: `device.RemovePeer` (not under `src/`)
releases the peer and its routing-trie entries ("remove each such peer
from the device (releasing its resources)"; a removed peer's entries are
absent from `EntriesForPeer`). -/
def RemovePeer (d : Device) (k : Key) : Device :=
  {d with peers := d.peers.filter (fun kv => kv.1 ≠ k),
          trie := d.trie.filter (fun e => e.2 ≠ k)}

/-- Modelled from the spec: `device.RemoveAllPeers` (not under `src/`)
tears down every peer on the device. -/
def RemoveAllPeers (d : Device) : Device :=
  {d with peers := [], trie := []}

/-- `device.allowedips.RemoveByPeer` through the collaborator contract:
drop every trie entry owned by the peer. -/
def trieRemoveByPeer (d : Device) (k : Key) : Device :=
  {d with trie := d.trie.filter (fun e => e.2 ≠ k)}

/-- `device.allowedips.Insert` through the collaborator contract; the
spec requires duplicate inserts to be idempotent. -/
def trieInsert (d : Device) (a : Cidr) (k : Key) : Device :=
  if (a, k) ∈ d.trie then d else {d with trie := d.trie ++ [(a, k)]}

/-- Map-style insertion into `newKeepalivePeers` (one entry per key). -/
def kaInsert (k : Key) (ka : List Key) : List Key :=
  if k ∈ ka then ka else ka ++ [k]

/-- The joined candidate string `p.Endpoints[0].String() + "," + ...`
(src/device/config.go, lines 133-136). -/
def endpointsStr (eps : List Endpoint) : GoStr :=
  joinChar ',' (eps.map Endpoint.render)

/-- The allowed-IP tail of the per-peer loop (src/device/config.go,
lines 156-178): record the new list if changed, remove the peer's trie
entries only if changed, then insert every prefix of the new list. -/
def processAllowedIPs (d : Device) (ka : List Key) (p : CfgPeer) :
    Except (RErr × Device) (Device × List Key) :=
  let k := p.PublicKey
  let cur := (lookupPeer d k).getD {}
  let allowedIPsChanged := !(cidrsEqual cur.allowedIPs p.AllowedIPs)
  let d := if allowedIPsChanged then
      updatePeer d k (fun q => {q with allowedIPs := p.AllowedIPs}) else d
  let d := if allowedIPsChanged then trieRemoveByPeer d k else d
  let d := p.AllowedIPs.foldl (fun dd a => trieInsert dd a k) d
  .ok (d, ka)

/-- The preshared-key step (src/device/config.go, lines 122-128):
overwrite only when the supplied key is non-zero. -/
def pskStep (d : Device) (p : CfgPeer) : Device :=
  if ¬ p.PresharedKey.IsZero then
    updatePeer d p.PublicKey (fun q => {q with presharedKey := p.PresharedKey})
  else d

/-- The unconditional keepalive-interval store (src/device/config.go,
line 131). -/
def kaStoreStep (d : Device) (p : CfgPeer) : Device :=
  updatePeer d p.PublicKey
    (fun q => {q with persistentKeepaliveInterval := p.PersistentKeepalive})

/-- The endpoint-replacement condition (src/device/config.go, line 132):
a non-empty new list and (no current endpoint or an endpoint list that
is not `endpointsEqual` to the current one). -/
def needNewEndpoint (d : Device) (p : CfgPeer) : Bool :=
  decide (p.Endpoints.length > 0) &&
    (match ((lookupPeer d p.PublicKey).getD {}).endpoint with
     | none => true
     | some obj => !(endpointsEqual p.Endpoints obj.addrs))

/-- The endpoint-replacement block (src/device/config.go, lines
133-154): build the joined candidate string, construct the endpoint
(failure aborts), store it, and when keepalive is active and the device
is up queue the keepalive and rewind the last-sent-handshake timestamp;
then the allowed-IP tail. -/
def endpointStep (E : DeviceEnv) (now : Int) (d : Device) (ka : List Key) (p : CfgPeer) :
    Except (RErr × Device) (Device × List Key) :=
  let str := endpointsStr p.Endpoints
  match E.createEndpoint p.PublicKey str with
  | none => .error (.endpointFailed p.PublicKey str, d)
  | some ep =>
    let d := updatePeer d p.PublicKey (fun q => {q with endpoint := some ep})
    if p.PersistentKeepalive ≠ 0 ∧ d.isUp then
      processAllowedIPs
        (updatePeer d p.PublicKey (fun q => {q with lastSentHandshake := now - RekeyTimeout}))
        (kaInsert p.PublicKey ka) p
    else processAllowedIPs d ka p

/-- The body of the per-peer loop after the peer exists
(src/device/config.go, lines 122-178): preshared key overwrite only when
non-zero, unconditional keepalive-interval store, conditional endpoint
replacement, then the allowed-IP tail. -/
def processPeerFields (E : DeviceEnv) (now : Int) (d : Device) (ka : List Key)
    (p : CfgPeer) : Except (RErr × Device) (Device × List Key) :=
  let d := kaStoreStep (pskStep d p) p
  if needNewEndpoint d p then endpointStep E now d ka p
  else processAllowedIPs d ka p

/-- One iteration of the per-peer loop (src/device/config.go,
lines 109-179): look the peer up, create it on miss (queueing a
keepalive for a new peer with a non-zero interval while the device is
up), then apply the field updates. -/
def processPeer (E : DeviceEnv) (now : Int) (st : Device × List Key) (p : CfgPeer) :
    Except (RErr × Device) (Device × List Key) :=
  let d := st.1
  let ka := st.2
  let k := p.PublicKey
  match lookupPeer d k with
  | none =>
    if E.newPeerOk k then
      let d := {d with peers := d.peers ++ [(k, {})]}
      let ka := if p.PersistentKeepalive ≠ 0 ∧ d.isUp then kaInsert k ka else ka
      processPeerFields E now d ka p
    else .error (.newPeerFailed k, d)
  | some _ => processPeerFields E now d ka p

/-- The whole per-peer loop of `Reconfig`. -/
def reconfigPeersLoop (E : DeviceEnv) (now : Int) :
    List CfgPeer → Device × List Key → Except (RErr × Device) (Device × List Key)
  | [], st => .ok st
  | p :: rest, st =>
    match processPeer E now st p with
    | .error e => .error e
    | .ok st' => reconfigPeersLoop E now rest st'

/-- The body of `device.Reconfig` (src/device/config.go, lines 71-187)
without the deferred error handler: remove peers absent from the new
configuration, rotate the private key if it changed, store the port and
rebind (failure becomes the distinguished port-in-use error), then run
the per-peer loop. On success the returned key list is the
`newKeepalivePeers` set: the peers sent exactly one `SendKeepalive` each
by the final loop (lines 181-185). On error the partially mutated
device accompanies the error. -/
def reconfigBody (E : DeviceEnv) (now : Int) (d : Device) (cfg : Cfg) :
    Except (RErr × Device) (Device × List Key) :=
  let keepKeys := cfg.Peers.map (fun p => p.PublicKey)
  let toRemove := (d.peers.map (fun kv => kv.1)).filter (fun k => ¬ keepKeys.contains k)
  let d := toRemove.foldl RemovePeer d
  let step2 : Except (RErr × Device) Device :=
    if d.privateKey ≠ cfg.PrivateKey then
      (if E.setPrivateKeyOk cfg.PrivateKey then .ok {d with privateKey := cfg.PrivateKey}
       else .error (.setPrivateKeyFailed cfg.PrivateKey, d))
    else .ok d
  match step2 with
  | .error e => .error e
  | .ok d =>
    let d := {d with port := cfg.ListenPort}
    if ¬ E.bindOk cfg.ListenPort then .error (.portInUse, d)
    else reconfigPeersLoop E now cfg.Peers (d, [])

/-- The error produced by the body of `Reconfig`, if any. -/
def reconfigErr (E : DeviceEnv) (now : Int) (d : Device) (cfg : Cfg) : Option RErr :=
  match reconfigBody E now d cfg with
  | .error (e, _) => some e
  | .ok _ => none

/-- `device.Reconfig` (src/device/config.go, lines 63-188): the body plus
the deferred handler, which on any non-nil error calls `RemoveAllPeers`
and re-propagates the original error. -/
def Reconfig (E : DeviceEnv) (now : Int) (d : Device) (cfg : Cfg) :
    Except (RErr × Device) (Device × List Key) :=
  match reconfigBody E now d cfg with
  | .ok st => .ok st
  | .error (e, d') => .error (e, RemoveAllPeers d')

theorem assocFind_update (l : List (Key × DPeer)) (j k : Key) (f : DPeer → DPeer) :
    assocFind (l.map (fun kv => if kv.1 = j then (kv.1, f kv.2) else kv)) k =
      if j = k then (assocFind l k).map f else assocFind l k := by
  induction l with
  | nil => by_cases h : j = k <;> simp [assocFind, h]
  | cons kv rest ih =>
    by_cases h1 : kv.1 = j
    · by_cases h2 : j = k
      · subst h2
        simp [assocFind, h1, ih]
      · have : kv.1 ≠ k := by rw [h1]; exact h2
        simp [assocFind, h1, this, ih, h2]
    · by_cases h2 : kv.1 = k
      · have hjk : j ≠ k := by intro hh; exact h1 (by rw [hh, h2])
        have hkj : ¬ k = j := fun hh => hjk hh.symm
        simp [assocFind, h1, h2, hjk, hkj]
      · simp [assocFind, h1, h2, ih]

theorem assocFind_append (l m : List (Key × DPeer)) (k : Key) :
    assocFind (l ++ m) k =
      match assocFind l k with
      | some v => some v
      | none => assocFind m k := by
  induction l with
  | nil => simp [assocFind]
  | cons kv rest ih =>
    by_cases h : kv.1 = k <;> simp [assocFind, h, ih]

theorem lookupPeer_updatePeer (d : Device) (j k : Key) (f : DPeer → DPeer) :
    lookupPeer (updatePeer d j f) k =
      if j = k then (lookupPeer d k).map f else lookupPeer d k := by
  simp [lookupPeer, updatePeer, assocFind_update]

theorem trieInsert_peers (d : Device) (a : Cidr) (k : Key) :
    (trieInsert d a k).peers = d.peers := by
  rw [trieInsert]
  split <;> rfl

theorem trieFold_peers (l : List Cidr) (k : Key) : ∀ d : Device,
    (l.foldl (fun dd a => trieInsert dd a k) d).peers = d.peers := by
  induction l with
  | nil => intro d; rfl
  | cons a rest ih =>
    intro d
    rw [List.foldl_cons, ih, trieInsert_peers]

theorem trieRemoveByPeer_peers (d : Device) (k : Key) :
    (trieRemoveByPeer d k).peers = d.peers := rfl

theorem processAllowedIPs_lookup (d : Device) (ka : List Key) (p : CfgPeer)
    (d' : Device) (ka' : List Key) (h : processAllowedIPs d ka p = .ok (d', ka')) :
    ka' = ka ∧ ∀ k, lookupPeer d' k =
      (lookupPeer d k).map (fun q =>
        if p.PublicKey = k ∧
            cidrsEqual ((lookupPeer d p.PublicKey).getD {}).allowedIPs p.AllowedIPs = false
        then {q with allowedIPs := p.AllowedIPs} else q) := by
  rw [processAllowedIPs] at h
  rw [Except.ok.injEq, Prod.mk.injEq] at h
  obtain ⟨hd, hka⟩ := h
  refine ⟨hka.symm, ?_⟩
  intro k
  cases hBval : cidrsEqual ((lookupPeer d p.PublicKey).getD {}).allowedIPs p.AllowedIPs with
  | false =>
    rw [hBval] at hd
    simp only [Bool.not_false, if_pos] at hd
    have hlk : lookupPeer d' k = lookupPeer (updatePeer d p.PublicKey
        (fun q => {q with allowedIPs := p.AllowedIPs})) k := by
      rw [lookupPeer, ← hd, trieFold_peers, trieRemoveByPeer_peers]
      rfl
    rw [hlk, lookupPeer_updatePeer]
    by_cases hk : p.PublicKey = k
    · simp [hk]
    · have hcond : ¬ (p.PublicKey = k ∧ (false : Bool) = false) := fun hc => hk hc.1
      cases lookupPeer d k with
      | none => simp [hk]
      | some q => simp [hk]
  | true =>
    rw [hBval] at hd
    simp only [Bool.not_true, Bool.false_eq_true, if_neg] at hd
    have hlk : lookupPeer d' k = lookupPeer d k := by
      rw [lookupPeer, ← hd, trieFold_peers]
      rfl
    rw [hlk]
    have hcond : ¬ (p.PublicKey = k ∧ (true : Bool) = false) := by
      intro hc
      exact absurd hc.2 (by simp)
    cases lookupPeer d k with
    | none => rfl
    | some q => simp [hcond]


theorem lookupPeer_updatePeer_self (d : Device) (k : Key) (f : DPeer → DPeer) :
    lookupPeer (updatePeer d k f) k = (lookupPeer d k).map f := by
  rw [lookupPeer_updatePeer, if_pos rfl]

theorem lookupPeer_updatePeer_ne (d : Device) (j k : Key) (f : DPeer → DPeer)
    (h : j ≠ k) : lookupPeer (updatePeer d j f) k = lookupPeer d k := by
  rw [lookupPeer_updatePeer, if_neg h]

theorem kaInsert_mem_ne (k j : Key) (ka : List Key) (h : k ≠ j) :
    (k ∈ kaInsert j ka) ↔ k ∈ ka := by
  rw [kaInsert]
  split
  · exact Iff.rfl
  · simp [h]

theorem processAllowedIPs_frame (d : Device) (ka : List Key) (p : CfgPeer)
    (d' : Device) (ka' : List Key) (k : Key) (hk : p.PublicKey ≠ k)
    (h : processAllowedIPs d ka p = .ok (d', ka')) :
    lookupPeer d' k = lookupPeer d k ∧ ka' = ka := by
  obtain ⟨hka, hl⟩ := processAllowedIPs_lookup d ka p d' ka' h
  refine ⟨?_, hka⟩
  rw [hl k]
  cases lookupPeer d k with
  | none => rfl
  | some q => simp [hk]

theorem processAllowedIPs_at_key (d : Device) (ka : List Key) (p : CfgPeer)
    (d' : Device) (ka' : List Key) (q : DPeer)
    (hq : lookupPeer d p.PublicKey = some q)
    (h : processAllowedIPs d ka p = .ok (d', ka')) :
    ka' = ka ∧ ∃ q', lookupPeer d' p.PublicKey = some q' ∧
      q'.presharedKey = q.presharedKey ∧
      q'.persistentKeepaliveInterval = q.persistentKeepaliveInterval ∧
      q'.endpoint = q.endpoint ∧ q'.lastSentHandshake = q.lastSentHandshake := by
  obtain ⟨hka, hl⟩ := processAllowedIPs_lookup d ka p d' ka' h
  refine ⟨hka, ?_⟩
  rw [hl p.PublicKey, hq]
  simp only [Option.map_some]
  refine ⟨_, rfl, ?_, ?_, ?_, ?_⟩ <;> (split <;> rfl)

theorem endpointStep_at_key (E : DeviceEnv) (now : Int) (d : Device) (ka : List Key)
    (p : CfgPeer) (dF : Device) (kaF : List Key) (q : DPeer)
    (hq : lookupPeer d p.PublicKey = some q)
    (h : endpointStep E now d ka p = .ok (dF, kaF)) :
    ∃ q', lookupPeer dF p.PublicKey = some q' ∧
      q'.presharedKey = q.presharedKey ∧
      q'.persistentKeepaliveInterval = q.persistentKeepaliveInterval := by
  rw [endpointStep] at h
  cases hce : E.createEndpoint p.PublicKey (endpointsStr p.Endpoints) with
  | none =>
    rw [hce] at h
    exact absurd h (by simp)
  | some ep =>
    rw [hce] at h
    dsimp only at h
    by_cases hcond : p.PersistentKeepalive ≠ 0 ∧
        (updatePeer d p.PublicKey (fun q => {q with endpoint := some ep})).isUp = true
    · rw [if_pos hcond] at h
      have hq4 : lookupPeer (updatePeer (updatePeer d p.PublicKey
          (fun q => {q with endpoint := some ep})) p.PublicKey
          (fun q => {q with lastSentHandshake := now - RekeyTimeout})) p.PublicKey =
          some {q with endpoint := some ep, lastSentHandshake := now - RekeyTimeout} := by
        rw [lookupPeer_updatePeer_self, lookupPeer_updatePeer_self, hq]
        rfl
      obtain ⟨_, q', hq', h1, h2, _, _⟩ := processAllowedIPs_at_key _ _ _ _ _ _ hq4 h
      exact ⟨q', hq', h1, h2⟩
    · rw [if_neg hcond] at h
      have hq3 : lookupPeer (updatePeer d p.PublicKey
          (fun q => {q with endpoint := some ep})) p.PublicKey =
          some {q with endpoint := some ep} := by
        rw [lookupPeer_updatePeer_self, hq]
        rfl
      obtain ⟨_, q', hq', h1, h2, _, _⟩ := processAllowedIPs_at_key _ _ _ _ _ _ hq3 h
      exact ⟨q', hq', h1, h2⟩

theorem endpointStep_frame (E : DeviceEnv) (now : Int) (d : Device) (ka : List Key)
    (p : CfgPeer) (dF : Device) (kaF : List Key) (k : Key) (hk : k ≠ p.PublicKey)
    (h : endpointStep E now d ka p = .ok (dF, kaF)) :
    lookupPeer dF k = lookupPeer d k ∧ (k ∈ kaF ↔ k ∈ ka) := by
  rw [endpointStep] at h
  cases hce : E.createEndpoint p.PublicKey (endpointsStr p.Endpoints) with
  | none =>
    rw [hce] at h
    exact absurd h (by simp)
  | some ep =>
    rw [hce] at h
    dsimp only at h
    by_cases hcond : p.PersistentKeepalive ≠ 0 ∧
        (updatePeer d p.PublicKey (fun q => {q with endpoint := some ep})).isUp = true
    · rw [if_pos hcond] at h
      obtain ⟨hl, hka⟩ := processAllowedIPs_frame _ _ _ _ _ k (fun hh => hk hh.symm) h
      rw [hka]
      rw [hl, lookupPeer_updatePeer_ne _ _ _ _ (fun hh => hk hh.symm),
        lookupPeer_updatePeer_ne _ _ _ _ (fun hh => hk hh.symm)]
      exact ⟨rfl, kaInsert_mem_ne k p.PublicKey ka hk⟩
    · rw [if_neg hcond] at h
      obtain ⟨hl, hka⟩ := processAllowedIPs_frame _ _ _ _ _ k (fun hh => hk hh.symm) h
      rw [hka]
      rw [hl, lookupPeer_updatePeer_ne _ _ _ _ (fun hh => hk hh.symm)]
      exact ⟨rfl, Iff.rfl⟩

theorem processPeerFields_at_key (E : DeviceEnv) (now : Int) (d : Device) (ka : List Key)
    (p : CfgPeer) (dF : Device) (kaF : List Key) (old : DPeer)
    (hex : lookupPeer d p.PublicKey = some old)
    (h : processPeerFields E now d ka p = .ok (dF, kaF)) :
    ∃ qF, lookupPeer dF p.PublicKey = some qF ∧
      qF.presharedKey = (if p.PresharedKey.IsZero then old.presharedKey else p.PresharedKey) ∧
      qF.persistentKeepaliveInterval = p.PersistentKeepalive ∧
      (p.Endpoints = [] →
        qF.endpoint = old.endpoint ∧ qF.lastSentHandshake = old.lastSentHandshake ∧ kaF = ka) := by
  rw [processPeerFields] at h
  have hq2 : lookupPeer (kaStoreStep (pskStep d p) p) p.PublicKey =
      some { (if p.PresharedKey.IsZero then old else {old with presharedKey := p.PresharedKey})
             with persistentKeepaliveInterval := p.PersistentKeepalive } := by
    rw [kaStoreStep, lookupPeer_updatePeer_self, pskStep]
    by_cases hz : p.PresharedKey.IsZero
    · rw [if_neg (by simpa using hz), hex, if_pos hz]
      rfl
    · rw [if_pos (by simpa using hz), lookupPeer_updatePeer_self, hex, if_neg hz]
      rfl
  by_cases hne : needNewEndpoint (kaStoreStep (pskStep d p) p) p = true
  · rw [if_pos hne] at h
    obtain ⟨q', hq', h1, h2⟩ := endpointStep_at_key _ _ _ _ _ _ _ _ hq2 h
    refine ⟨q', hq', by rw [h1]; split <;> rfl, by rw [h2], ?_⟩
    intro hemp
    exfalso
    rw [needNewEndpoint, hemp] at hne
    simp at hne
  · rw [if_neg hne] at h
    obtain ⟨hka, q', hq', h1, h2, h3, h4⟩ := processAllowedIPs_at_key _ _ _ _ _ _ hq2 h
    refine ⟨q', hq', by rw [h1]; split <;> rfl, by rw [h2], ?_⟩
    intro _
    refine ⟨by rw [h3]; split <;> rfl, by rw [h4]; split <;> rfl, hka⟩

theorem processPeerFields_frame (E : DeviceEnv) (now : Int) (d : Device) (ka : List Key)
    (p : CfgPeer) (dF : Device) (kaF : List Key) (k : Key) (hk : k ≠ p.PublicKey)
    (h : processPeerFields E now d ka p = .ok (dF, kaF)) :
    lookupPeer dF k = lookupPeer d k ∧ (k ∈ kaF ↔ k ∈ ka) := by
  rw [processPeerFields] at h
  have hpre : lookupPeer (kaStoreStep (pskStep d p) p) k = lookupPeer d k := by
    rw [kaStoreStep, lookupPeer_updatePeer_ne _ _ _ _ (fun hh => hk hh.symm), pskStep]
    split
    · rw [lookupPeer_updatePeer_ne _ _ _ _ (fun hh => hk hh.symm)]
    · rfl
  by_cases hne : needNewEndpoint (kaStoreStep (pskStep d p) p) p = true
  · rw [if_pos hne] at h
    obtain ⟨hl, hka⟩ := endpointStep_frame _ _ _ _ _ _ _ k hk h
    rw [hl, hpre]
    exact ⟨rfl, hka⟩
  · rw [if_neg hne] at h
    obtain ⟨hl, hka⟩ := processAllowedIPs_frame _ _ _ _ _ k (fun hh => hk hh.symm) h
    rw [hl, hpre, hka]
    exact ⟨rfl, Iff.rfl⟩

theorem lookupPeer_appendFresh (d : Device) (j k : Key) (q0 : DPeer)
    (hnone : lookupPeer d j = none) :
    lookupPeer {d with peers := d.peers ++ [(j, q0)]} k =
      (if j = k then some q0 else lookupPeer d k) := by
  show assocFind (d.peers ++ [(j, q0)]) k = _
  rw [assocFind_append]
  by_cases hjk : j = k
  · subst hjk
    rw [show lookupPeer d j = assocFind d.peers j from rfl] at hnone
    rw [hnone]
    simp [assocFind]
  · rw [if_neg hjk]
    rw [show lookupPeer d k = assocFind d.peers k from rfl]
    cases hjq : assocFind d.peers k with
    | some v => rfl
    | none => simp [assocFind, hjk]

theorem processPeer_frame (E : DeviceEnv) (now : Int) (st : Device × List Key)
    (p : CfgPeer) (st' : Device × List Key) (k : Key) (hk : k ≠ p.PublicKey)
    (h : processPeer E now st p = .ok st') :
    lookupPeer st'.1 k = lookupPeer st.1 k ∧ (k ∈ st'.2 ↔ k ∈ st.2) := by
  obtain ⟨d, ka⟩ := st
  obtain ⟨dF, kaF⟩ := st'
  rw [processPeer] at h
  dsimp only at h
  cases hlp : lookupPeer d p.PublicKey with
  | some old =>
    rw [hlp] at h
    exact processPeerFields_frame E now d ka p dF kaF k hk h
  | none =>
    rw [hlp] at h
    by_cases hnew : E.newPeerOk p.PublicKey = true
    · rw [if_pos hnew] at h
      obtain ⟨hl, hka⟩ := processPeerFields_frame E now _ _ p dF kaF k hk h
      constructor
      · rw [hl, lookupPeer_appendFresh d p.PublicKey k {} hlp,
          if_neg (fun hh => hk hh.symm)]
      · rw [hka]
        by_cases hcond : p.PersistentKeepalive ≠ 0 ∧
            ({d with peers := d.peers ++ [(p.PublicKey, {})]} : Device).isUp = true
        · rw [if_pos hcond]
          exact kaInsert_mem_ne k p.PublicKey ka hk
        · rw [if_neg hcond]
    · rw [if_neg hnew] at h
      exact absurd h (by simp)

theorem processPeer_psk (E : DeviceEnv) (now : Int) (d : Device) (ka : List Key)
    (p : CfgPeer) (st' : Device × List Key)
    (h : processPeer E now (d, ka) p = .ok st') :
    ∃ qF, lookupPeer st'.1 p.PublicKey = some qF ∧
      qF.presharedKey = (if p.PresharedKey.IsZero then
          ((lookupPeer d p.PublicKey).getD {}).presharedKey
        else p.PresharedKey) := by
  obtain ⟨dF, kaF⟩ := st'
  rw [processPeer] at h
  dsimp only at h
  cases hlp : lookupPeer d p.PublicKey with
  | some old =>
    rw [hlp] at h
    obtain ⟨qF, hqF, h1, _, _⟩ := processPeerFields_at_key E now d ka p dF kaF old hlp h
    exact ⟨qF, hqF, by rw [h1]; rfl⟩
  | none =>
    rw [hlp] at h
    by_cases hnew : E.newPeerOk p.PublicKey = true
    · rw [if_pos hnew] at h
      have hfresh : lookupPeer {d with peers := d.peers ++ [(p.PublicKey, {})]} p.PublicKey =
          some {} := by
        rw [lookupPeer_appendFresh d p.PublicKey p.PublicKey {} hlp, if_pos rfl]
      obtain ⟨qF, hqF, h1, _, _⟩ := processPeerFields_at_key E now _ _ p dF kaF {} hfresh h
      exact ⟨qF, hqF, by rw [h1]; rfl⟩
    · rw [if_neg hnew] at h
      exact absurd h (by simp)

theorem processPeer_at_key_existing (E : DeviceEnv) (now : Int) (d : Device)
    (ka : List Key) (p : CfgPeer) (st' : Device × List Key) (old : DPeer)
    (hex : lookupPeer d p.PublicKey = some old)
    (h : processPeer E now (d, ka) p = .ok st') :
    ∃ qF, lookupPeer st'.1 p.PublicKey = some qF ∧
      qF.presharedKey = (if p.PresharedKey.IsZero then old.presharedKey else p.PresharedKey) ∧
      qF.persistentKeepaliveInterval = p.PersistentKeepalive ∧
      (p.Endpoints = [] →
        qF.endpoint = old.endpoint ∧ qF.lastSentHandshake = old.lastSentHandshake ∧
        st'.2 = ka) := by
  obtain ⟨dF, kaF⟩ := st'
  rw [processPeer] at h
  dsimp only at h
  rw [hex] at h
  exact processPeerFields_at_key E now d ka p dF kaF old hex h

theorem reconfigPeersLoop_append (E : DeviceEnv) (now : Int) (xs ys : List CfgPeer) :
    ∀ st, reconfigPeersLoop E now (xs ++ ys) st =
      match reconfigPeersLoop E now xs st with
      | .error e => .error e
      | .ok mid => reconfigPeersLoop E now ys mid := by
  induction xs with
  | nil => intro st; rfl
  | cons p rest ih =>
    intro st
    rw [List.cons_append, reconfigPeersLoop, reconfigPeersLoop]
    cases processPeer E now st p with
    | error e => rfl
    | ok st1 => exact ih st1

theorem reconfigPeersLoop_frame (E : DeviceEnv) (now : Int) (l : List CfgPeer) (k : Key)
    (hk : ∀ q ∈ l, q.PublicKey ≠ k) : ∀ st st',
    reconfigPeersLoop E now l st = .ok st' →
    lookupPeer st'.1 k = lookupPeer st.1 k ∧ (k ∈ st'.2 ↔ k ∈ st.2) := by
  induction l with
  | nil =>
    intro st st' h
    rw [reconfigPeersLoop] at h
    cases h
    exact ⟨rfl, Iff.rfl⟩
  | cons p rest ih =>
    intro st st' h
    rw [reconfigPeersLoop] at h
    cases hp : processPeer E now st p with
    | error e => rw [hp] at h; cases h
    | ok st1 =>
      rw [hp] at h
      obtain ⟨hl1, hka1⟩ := processPeer_frame E now st p st1 k
        (fun hh => (hk p (List.mem_cons_self p rest)) hh.symm) hp
      obtain ⟨hl2, hka2⟩ := ih (fun q hq => hk q (List.mem_cons_of_mem p hq)) st1 st' h
      exact ⟨hl2.trans hl1, hka2.trans hka1⟩

theorem assocFind_filter_ne (l : List (Key × DPeer)) (j k : Key) (hjk : j ≠ k) :
    assocFind (l.filter (fun kv => kv.1 ≠ j)) k = assocFind l k := by
  induction l with
  | nil => rfl
  | cons kv rest ih =>
    rw [List.filter_cons]
    by_cases h1 : kv.1 = j
    · have hcond : decide (kv.1 ≠ j) = false := by simp [h1]
      have h2 : kv.1 ≠ k := by rw [h1]; exact hjk
      rw [hcond, if_neg Bool.false_ne_true, ih,
        show assocFind (kv :: rest) k = assocFind rest k from by
          rw [assocFind, if_neg h2]]
    · have hcond : decide (kv.1 ≠ j) = true := by simp [h1]
      rw [hcond, if_pos rfl, assocFind, assocFind, ih]

theorem lookupPeer_removePeer_ne (d : Device) (j k : Key) (h : j ≠ k) :
    lookupPeer (RemovePeer d j) k = lookupPeer d k :=
  assocFind_filter_ne d.peers j k h

theorem foldRemove_lookup (l : List Key) (k : Key) (hk : k ∉ l) : ∀ d : Device,
    lookupPeer (l.foldl RemovePeer d) k = lookupPeer d k := by
  induction l with
  | nil => intro d; rfl
  | cons j rest ih =>
    intro d
    have hjk : j ≠ k := fun hh => hk (hh ▸ List.mem_cons_self j rest)
    rw [List.foldl_cons, ih (fun hh => hk (List.mem_cons_of_mem j hh)),
      lookupPeer_removePeer_ne d j k hjk]

theorem reconfigBody_ok (E : DeviceEnv) (now : Int) (d : Device) (cfg : Cfg)
    (st : Device × List Key) (h : reconfigBody E now d cfg = .ok st) :
    ∃ d2 : Device, reconfigPeersLoop E now cfg.Peers (d2, []) = .ok st ∧
      ∀ k, (cfg.Peers.map (fun p => p.PublicKey)).contains k = true →
        lookupPeer d2 k = lookupPeer d k := by
  rw [reconfigBody] at h
  have hkept : ∀ k, (cfg.Peers.map (fun p => p.PublicKey)).contains k = true →
      lookupPeer (((d.peers.map (fun kv => kv.1)).filter
        (fun k => ¬ (cfg.Peers.map (fun p => p.PublicKey)).contains k)).foldl RemovePeer d) k =
        lookupPeer d k := by
    intro k hkc
    refine foldRemove_lookup _ k ?_ d
    intro hmem
    have := (List.mem_filter.mp hmem).2
    simp only [decide_eq_true_eq] at this
    exact this hkc
  by_cases hpk : (((d.peers.map (fun kv => kv.1)).filter
      (fun k => ¬ (cfg.Peers.map (fun p => p.PublicKey)).contains k)).foldl RemovePeer d).privateKey ≠
      cfg.PrivateKey
  · rw [if_pos hpk] at h
    by_cases hset : E.setPrivateKeyOk cfg.PrivateKey = true
    · rw [if_pos hset] at h
      dsimp only at h
      by_cases hbind : E.bindOk cfg.ListenPort = true
      · rw [if_neg (by simpa using hbind)] at h
        refine ⟨_, h, ?_⟩
        intro k hkc
        exact hkept k hkc
      · rw [if_pos (by simpa using hbind)] at h
        cases h
    · rw [if_neg hset] at h
      cases h
  · rw [if_neg hpk] at h
    dsimp only at h
    by_cases hbind : E.bindOk cfg.ListenPort = true
    · rw [if_neg (by simpa using hbind)] at h
      refine ⟨_, h, ?_⟩
      intro k hkc
      exact hkept k hkc
    · rw [if_pos (by simpa using hbind)] at h
      cases h

/-! ### Concrete scenarios used by witnesses and counterexamples -/

/-- Collaborator oracles in which every operation succeeds; endpoint
objects are created with an empty resolved list. -/
def allOkEnv : DeviceEnv :=
  { setPrivateKeyOk := fun _ => true, bindOk := fun _ => true,
    newPeerOk := fun _ => true, createEndpoint := fun _ _ => some ⟨[]⟩ }

/-- Collaborator oracles in which the port rebind fails. -/
def bindFailEnv : DeviceEnv :=
  { allOkEnv with bindOk := fun _ => false }

def kA : Key := [1]

def epA : Endpoint := ⟨['h'], 7⟩

def cidrA : Cidr := ⟨10, true, 32⟩

/-- A live peer with keepalive disabled, a configured endpoint and one
allowed prefix. -/
def peerA : DPeer := { endpoint := some ⟨[epA]⟩, allowedIPs := [cidrA] }

/-- A live, up device holding exactly `peerA`. -/
def devA : Device := { peers := [(kA, peerA)], privateKey := [9], port := 7, isUp := true, trie := [(cidrA, kA)] }

/-- A configuration identical to the live state of `devA` except that the
peer's `PersistentKeepalive` changed from 0 to 5. -/
def cfgA : Cfg := { PrivateKey := [9], ListenPort := 7, Peers := [{ PublicKey := kA, AllowedIPs := [cidrA], Endpoints := [epA], PersistentKeepalive := 5 }] }

/-! ### Claim theorems about the reconciliation engine -/

/-- C1: whenever `Reconfig` returns an error, the deferred handler has
removed every peer (and with them their routing-trie entries) before
returning, and the error delivered to the caller is exactly the error
the failing step produced, not a rollback-specific one. -/
theorem reconfig_error_rolls_back_to_empty_peers (E : DeviceEnv) (now : Int)
    (d : Device) (cfg : Cfg) (e : RErr) (d' : Device)
    (h : Reconfig E now d cfg = .error (e, d')) :
    d'.peers = [] ∧ d'.trie = [] ∧ reconfigErr E now d cfg = some e := by
  rw [Reconfig] at h
  cases hbody : reconfigBody E now d cfg with
  | ok st =>
    rw [hbody] at h
    cases h
  | error ed =>
    obtain ⟨e0, d0⟩ := ed
    rw [hbody] at h
    rw [Except.error.injEq, Prod.mk.injEq] at h
    obtain ⟨he, hd⟩ := h
    subst he
    subst hd
    exact ⟨rfl, rfl, by rw [reconfigErr, hbody]⟩

/-- Witness for C1: a concrete `Reconfig` whose rebind fails leaves the
peer table and trie empty and reports the original port-in-use error. -/
theorem reconfig_error_rolls_back_to_empty_peers_witness :
    ({ privateKey := [9], port := 7, isUp := true } : Device).peers = [] ∧
    ({ privateKey := [9], port := 7, isUp := true } : Device).trie = [] ∧
    reconfigErr bindFailEnv 0 devA cfgA = some .portInUse :=
  reconfig_error_rolls_back_to_empty_peers bindFailEnv 0 devA cfgA .portInUse
    { privateKey := [9], port := 7, isUp := true } (by decide)

/-- C4 (failing input): with the device up, reconfiguring with a
configuration identical to the live state except that the only peer's
`PersistentKeepalive` changes from 0 to 5 performs zero `SendKeepalive`
calls — the returned keepalive set (second component) is empty — because
the engine queues keepalives only for newly created peers and endpoint
changes. The spec requires exactly one call for that peer. -/
theorem reconfig_keepalive_toggle_sends_no_keepalive :
    Reconfig allOkEnv 0 devA cfgA =
      .ok ({ devA with peers := [(kA, { peerA with persistentKeepaliveInterval := 5 })] }, []) := by
  decide

def epX : Endpoint := ⟨['a'], 1⟩

def epY : Endpoint := ⟨['b'], 2⟩

/-- C5 (counterexample): `endpointsEqual` answers `true` on two lists of
equal length and equal element sets but different multiplicities, so it
is not multiset equality. -/
theorem endpointsEqual_true_on_non_multiset_equal :
    endpointsEqual [epX, epX, epY] [epX, epY, epY] = true ∧
    ¬ List.Perm [epX, epX, epY] [epX, epY, epY] :=
  ⟨by decide, by decide⟩

/-- C5 (amended): both comparison functions answer `true` exactly on
lists of equal length whose second list's elements all occur in the
first; in particular they are invariant under permutation, so a merely
reordered endpoint or allowed-IP list is never treated as a change. -/
theorem comparisons_permutation_invariant :
    (∀ x y : List Endpoint, endpointsEqual x y = true ↔
      (x.length = y.length ∧ ∀ e ∈ y, e ∈ x)) ∧
    (∀ x y : List Cidr, cidrsEqual x y = true ↔
      (x.length = y.length ∧ ∀ v ∈ y, v ∈ x)) ∧
    (∀ x y : List Endpoint, x.Perm y → endpointsEqual x y = true) ∧
    (∀ x y : List Cidr, x.Perm y → cidrsEqual x y = true) := by
  have hchar : ∀ x y : List Endpoint, endpointsEqual x y = true ↔
      (x.length = y.length ∧ ∀ e ∈ y, e ∈ x) := by
    intro x y
    rw [endpointsEqual]
    by_cases hlen : x.length ≠ y.length
    · simp [hlen]
    · rw [if_neg hlen]
      push_neg at hlen
      by_cases hxy : x == y
      · have hxy' : x = y := by simpa using hxy
        subst hxy'
        simp [hxy]
      · simp only [hxy, Bool.false_eq_true, if_neg, if_false]
        simp [List.all_eq_true, hlen]
  have hchar2 : ∀ x y : List Cidr, cidrsEqual x y = true ↔
      (x.length = y.length ∧ ∀ v ∈ y, v ∈ x) := by
    intro x y
    rw [cidrsEqual]
    by_cases hlen : x.length ≠ y.length
    · simp [hlen]
    · rw [if_neg hlen]
      push_neg at hlen
      by_cases hxy : x == y
      · have hxy' : x = y := by simpa using hxy
        subst hxy'
        simp [hxy]
      · simp only [hxy, Bool.false_eq_true, if_neg, if_false]
        simp [List.all_eq_true, hlen]
  refine ⟨hchar, hchar2, ?_, ?_⟩
  · intro x y hperm
    exact (hchar x y).mpr ⟨hperm.length_eq, fun e he => hperm.symm.subset he⟩
  · intro x y hperm
    exact (hchar2 x y).mpr ⟨hperm.length_eq, fun v hv => hperm.symm.subset hv⟩

/-- Witness for C5's amended theorem: a concrete permuted pair compares
equal. -/
theorem comparisons_permutation_invariant_witness :
    endpointsEqual [epX, epY] [epY, epX] = true :=
  comparisons_permutation_invariant.2.2.1 [epX, epY] [epY, epX] (by decide)

/-- C7: for every peer entry of a successfully applied configuration
(with distinct peer keys), the peer's stored preshared key afterwards is
the supplied one when that is non-zero, and is exactly the previously
stored key (the fresh-peer zero value for a created peer) when the
supplied key is the zero value — a zero value never clears a configured
preshared key. -/
theorem reconfig_preshared_key_policy (E : DeviceEnv) (now : Int) (d : Device)
    (cfg : Cfg) (st : Device × List Key) (p : CfgPeer)
    (hnodup : (cfg.Peers.map (fun q => q.PublicKey)).Nodup)
    (hp : p ∈ cfg.Peers)
    (hok : Reconfig E now d cfg = .ok st) :
    ∃ qF, lookupPeer st.1 p.PublicKey = some qF ∧
      qF.presharedKey = (if p.PresharedKey.IsZero then
          ((lookupPeer d p.PublicKey).getD {}).presharedKey
        else p.PresharedKey) := by
  rw [Reconfig] at hok
  cases hbody : reconfigBody E now d cfg with
  | error ed => rw [hbody] at hok; cases hok
  | ok st0 =>
    rw [hbody] at hok
    cases hok
    obtain ⟨d2, hloop, hkeep⟩ := reconfigBody_ok E now d cfg st hbody
    have hcont : (cfg.Peers.map (fun q => q.PublicKey)).contains p.PublicKey = true := by
      have : p.PublicKey ∈ cfg.Peers.map (fun q => q.PublicKey) :=
        List.mem_map_of_mem (fun q => q.PublicKey) hp
      simpa [List.contains] using this
    have hd2 := hkeep p.PublicKey hcont
    obtain ⟨l1, l2, hsplit⟩ := List.append_of_mem hp
    rw [hsplit] at hloop
    rw [hsplit, List.map_append, List.map_cons] at hnodup
    obtain ⟨hnd1, hnd2, hdisj⟩ := List.nodup_append.mp hnodup
    have hk1 : ∀ q ∈ l1, q.PublicKey ≠ p.PublicKey := by
      intro q hq heq
      exact hdisj (List.mem_map_of_mem (fun q => q.PublicKey) hq)
        (heq ▸ List.mem_cons_self _ _)
    have hk2 : ∀ q ∈ l2, q.PublicKey ≠ p.PublicKey := by
      intro q hq heq
      exact (List.nodup_cons.mp hnd2).1 (heq ▸ List.mem_map_of_mem (fun q => q.PublicKey) hq)
    rw [reconfigPeersLoop_append] at hloop
    cases hmid : reconfigPeersLoop E now l1 (d2, []) with
    | error e => rw [hmid] at hloop; cases hloop
    | ok mid =>
      rw [hmid] at hloop
      dsimp only at hloop
      rw [reconfigPeersLoop] at hloop
      cases hpp : processPeer E now mid p with
      | error e => rw [hpp] at hloop; cases hloop
      | ok mid2 =>
        rw [hpp] at hloop
        dsimp only at hloop
        obtain ⟨hlm, _⟩ := reconfigPeersLoop_frame E now l1 p.PublicKey hk1 (d2, []) mid hmid
        obtain ⟨qF, hqF, hpsk⟩ := processPeer_psk E now mid.1 mid.2 p mid2 hpp
        obtain ⟨hlm2, _⟩ := reconfigPeersLoop_frame E now l2 p.PublicKey hk2 mid2 st hloop
        refine ⟨qF, by rw [hlm2]; exact hqF, ?_⟩
        rw [hpsk, hlm]
        rw [show lookupPeer (d2, ([] : List Key)).1 p.PublicKey = lookupPeer d2 p.PublicKey
          from rfl, hd2]

/-- A live peer holding a non-zero preshared key, and a configuration
that supplies the zero preshared key for it. -/
def peerPsk : DPeer := { presharedKey := [7] }

def devPsk : Device := { peers := [(kA, peerPsk)] }

def cfgPsk : Cfg := { Peers := [{ PublicKey := kA }] }

/-- Witness for C7: a reconfiguration supplying a zero preshared key
leaves the previously configured key `[7]` in place. -/
theorem reconfig_preshared_key_policy_witness :
    ∃ qF, lookupPeer devPsk kA = some qF ∧
      qF.presharedKey = (if (zeroKey : Key).IsZero then
          ((lookupPeer devPsk kA).getD {}).presharedKey
        else zeroKey) :=
  reconfig_preshared_key_policy allOkEnv 0 devPsk cfgPsk (devPsk, []) { PublicKey := kA }
    (by decide) (by decide) (by decide)

/-- C10 (counterexample): a configuration entry whose endpoint list is
empty but which creates a new peer with a non-zero keepalive while the
device is up does queue a keepalive for that peer (the claim asserts an
empty endpoint list triggers no keepalive queueing for the peer). -/
theorem reconfig_new_peer_empty_endpoints_queues_keepalive :
    Reconfig allOkEnv 0 ({ isUp := true } : Device)
        ({ Peers := [{ PublicKey := kA, PersistentKeepalive := 5 }] } : Cfg) =
      .ok ({ peers := [(kA, { persistentKeepaliveInterval := 5 })], isUp := true }, [kA]) := by
  decide

/-- C10 (amended): for every peer that already exists on the device, a
configuration entry with an empty endpoint list leaves that peer's
endpoint object and last-sent-handshake timestamp exactly unchanged and
queues no keepalive for it (newly created peers are excluded: they are
queued for a keepalive based on their keepalive interval alone). -/
theorem reconfig_empty_endpoints_frame (E : DeviceEnv) (now : Int) (d : Device)
    (cfg : Cfg) (st : Device × List Key) (p : CfgPeer) (oldp : DPeer)
    (hnodup : (cfg.Peers.map (fun q => q.PublicKey)).Nodup)
    (hp : p ∈ cfg.Peers)
    (hemp : p.Endpoints = [])
    (hex : lookupPeer d p.PublicKey = some oldp)
    (hok : Reconfig E now d cfg = .ok st) :
    ∃ qF, lookupPeer st.1 p.PublicKey = some qF ∧
      qF.endpoint = oldp.endpoint ∧
      qF.lastSentHandshake = oldp.lastSentHandshake ∧
      p.PublicKey ∉ st.2 := by
  rw [Reconfig] at hok
  cases hbody : reconfigBody E now d cfg with
  | error ed => rw [hbody] at hok; cases hok
  | ok st0 =>
    rw [hbody] at hok
    cases hok
    obtain ⟨d2, hloop, hkeep⟩ := reconfigBody_ok E now d cfg st hbody
    have hcont : (cfg.Peers.map (fun q => q.PublicKey)).contains p.PublicKey = true := by
      have : p.PublicKey ∈ cfg.Peers.map (fun q => q.PublicKey) :=
        List.mem_map_of_mem (fun q => q.PublicKey) hp
      simpa [List.contains] using this
    have hd2 := hkeep p.PublicKey hcont
    obtain ⟨l1, l2, hsplit⟩ := List.append_of_mem hp
    rw [hsplit] at hloop
    rw [hsplit, List.map_append, List.map_cons] at hnodup
    obtain ⟨hnd1, hnd2, hdisj⟩ := List.nodup_append.mp hnodup
    have hk1 : ∀ q ∈ l1, q.PublicKey ≠ p.PublicKey := by
      intro q hq heq
      exact hdisj (List.mem_map_of_mem (fun q => q.PublicKey) hq)
        (heq ▸ List.mem_cons_self _ _)
    have hk2 : ∀ q ∈ l2, q.PublicKey ≠ p.PublicKey := by
      intro q hq heq
      exact (List.nodup_cons.mp hnd2).1 (heq ▸ List.mem_map_of_mem (fun q => q.PublicKey) hq)
    rw [reconfigPeersLoop_append] at hloop
    cases hmid : reconfigPeersLoop E now l1 (d2, []) with
    | error e => rw [hmid] at hloop; cases hloop
    | ok mid =>
      rw [hmid] at hloop
      dsimp only at hloop
      rw [reconfigPeersLoop] at hloop
      cases hpp : processPeer E now mid p with
      | error e => rw [hpp] at hloop; cases hloop
      | ok mid2 =>
        rw [hpp] at hloop
        dsimp only at hloop
        obtain ⟨hlm, hkam⟩ := reconfigPeersLoop_frame E now l1 p.PublicKey hk1 (d2, []) mid hmid
        have hmidex : lookupPeer mid.1 p.PublicKey = some oldp := by
          rw [hlm]
          rw [show lookupPeer (d2, ([] : List Key)).1 p.PublicKey = lookupPeer d2 p.PublicKey
            from rfl, hd2, hex]
        obtain ⟨qF, hqF, _, _, himp⟩ :=
          processPeer_at_key_existing E now mid.1 mid.2 p mid2 oldp hmidex hpp
        obtain ⟨hend, hlast, hka2⟩ := himp hemp
        obtain ⟨hlm2, hkam2⟩ := reconfigPeersLoop_frame E now l2 p.PublicKey hk2 mid2 st hloop
        refine ⟨qF, by rw [hlm2]; exact hqF, hend, hlast, ?_⟩
        intro hmem
        have h1 : p.PublicKey ∈ mid2.2 := hkam2.mp hmem
        rw [hka2] at h1
        have h2 : p.PublicKey ∈ ([] : List Key) := hkam.mp h1
        cases h2

/-- A configuration for `devA` identical to its live state but with an
empty endpoint list and keepalive 5 for the existing peer. -/
def cfgEmptyEp : Cfg := { PrivateKey := [9], ListenPort := 7, Peers := [{ PublicKey := kA, AllowedIPs := [cidrA], PersistentKeepalive := 5 }] }

/-- Witness for C10's amended theorem: the existing peer of `devA` keeps
its endpoint object and handshake timestamp and receives no keepalive
when its entry has no endpoints. -/
theorem reconfig_empty_endpoints_frame_witness :
    ∃ qF, lookupPeer ({ devA with peers := [(kA, { peerA with persistentKeepaliveInterval := 5 })] } : Device) kA = some qF ∧
      qF.endpoint = peerA.endpoint ∧
      qF.lastSentHandshake = peerA.lastSentHandshake ∧
      kA ∉ ([] : List Key) :=
  reconfig_empty_endpoints_frame allOkEnv 0 devA cfgEmptyEp
    ({ devA with peers := [(kA, { peerA with persistentKeepaliveInterval := 5 })] }, [])
    { PublicKey := kA, AllowedIPs := [cidrA], PersistentKeepalive := 5 } peerA
    (by decide) (by decide) (by decide) (by decide) (by decide)

end device

/-! ## Claim theorems about the codecs -/

theorem takeWhile_ne_of_not_mem (c : Char) (l : GoStr) (h : c ∉ l) :
    l.takeWhile (fun a => a ≠ c) = l := by
  induction l with
  | nil => rfl
  | cons a rest ih =>
    have hac : a ≠ c := fun hh => h (hh ▸ List.mem_cons_self a rest)
    have hd : (decide (a ≠ c)) = true := by simp [hac]
    rw [List.takeWhile_cons, hd, if_pos rfl, ih (fun hh => h (List.mem_cons_of_mem a hh))]

theorem indexOfChar_eq_none_of_not_mem (c : Char) (l : GoStr) (h : c ∉ l) :
    indexOfChar c l = none := by
  induction l with
  | nil => rfl
  | cons a rest ih =>
    have hac : a ≠ c := fun hh => h (hh ▸ List.mem_cons_self a rest)
    rw [indexOfChar, if_neg hac, ih (fun hh => h (List.mem_cons_of_mem a hh))]
    rfl

/-- An environment in which every collaborator rejects its input; enough
for the control-protocol counterexamples, which never reach them. -/
def envNull : Env :=
  { tunnelNameIsValid := fun _ => true
    parseKey := fun v => .error ⟨[], v⟩
    parseCidr := fun v => .error ⟨[], v⟩
    parseIP := fun _ => none
    printCidr := fun _ => []
    lookupIP := fun _ => .ok []
    isIP := fun _ => false }

/-- A fixed non-zero 32-byte key. -/
def kNZ : Key := 1 :: List.replicate 31 0

/-- An environment whose key decoder accepts exactly the text `K`,
producing the non-zero key `kNZ`. -/
def envK : Env :=
  { envNull with parseKey := fun v => if v = ['K'] then .ok kNZ else .error ⟨[], v⟩ }

/-- C6 (counterexample): `FromUAPI` accepts an explicit all-zero
`public_key` line, yielding a peer whose public key is the zero value;
the control-protocol decoder performs no zero check. -/
theorem fromUAPI_accepts_zero_public_key :
    wgcfg.FromUAPI envNull (("public_key=" ++ String.mk (List.replicate 64 '0')).toList) =
      .ok { Peers := [{ PublicKey := zeroKey }] } ∧
    (zeroKey : Key).IsZero = true :=
  ⟨by decide, by decide⟩

/-- C6 (amended): every `Config` accepted by `FromWgQuick` has only
peers with non-zero public keys (the final validation pass rejects any
zero key, including never-assigned ones); `FromUAPI` does not enforce
this. -/
theorem fromWgQuick_peers_have_nonzero_keys (env : Env) (s name : GoStr)
    (cfg : wgcfg.Config) (h : wgcfg.FromWgQuick env s name = .ok cfg) :
    ∀ p ∈ cfg.Peers, p.PublicKey.IsZero = false := by
  rw [wgcfg.FromWgQuick] at h
  by_cases hname : env.tunnelNameIsValid name = true
  · rw [if_neg (by simpa using hname)] at h
    cases hloop : wgcfg.fromWgQuickLoop env (splitOnChar '\n' s) .notInASection
        { Name := name } false none with
    | error e => rw [hloop] at h; cases h
    | ok res =>
      obtain ⟨conf, sawPK, peer⟩ := res
      rw [hloop] at h
      dsimp only at h
      by_cases hsaw : sawPK = true
      · rw [if_neg (by simpa using hsaw)] at h
        by_cases hany : (conf.maybeAddPeer peer).Peers.any (fun p => p.PublicKey.IsZero) = true
        · rw [if_pos hany] at h
          cases h
        · rw [if_neg hany] at h
          cases h
          intro p hp
          have := List.any_eq_false.mp (Bool.eq_false_iff.mpr hany) p hp
          simpa using this
      · rw [if_pos (by simpa using hsaw)] at h
        cases h
  · rw [if_pos (by simpa using hname)] at h
    cases h

def inpDoubleEq : GoStr :=
  ("[Interface]\nPrivateKey=K\n[Peer]\nPublicKey=K\nEndpoint=a=b:51820").toList

/-- The configuration `FromWgQuick` produces for `inpDoubleEq`. -/
def cfgDoubleEq : wgcfg.Config := { Name := ['t'], PrivateKey := kNZ, Peers := [{ PublicKey := kNZ, Endpoints := ("a=b:51820").toList }] }

/-- Witness for C6's amended theorem: a concrete accepted parse whose
single peer carries the non-zero key `kNZ`. -/
theorem fromWgQuick_peers_have_nonzero_keys_witness :
    ({ PublicKey := kNZ, Endpoints := ("a=b:51820").toList } : wgcfg.Peer).PublicKey.IsZero = false :=
  fromWgQuick_peers_have_nonzero_keys envK inpDoubleEq ['t'] cfgDoubleEq (by decide) _ (by decide)

/-- C2 (counterexample): `FromUAPI` accepts the empty stream and returns
a `Config` whose private key is the zero value — the control-protocol
decoder never requires a private key to be established. -/
theorem fromUAPI_accepts_stream_without_private_key :
    wgcfg.FromUAPI envNull [] = .ok {} ∧
    (({} : wgcfg.Config).PrivateKey).IsZero = true :=
  ⟨by decide, by decide⟩

/-- C8 (counterexample): a `[Peer]` line containing two `=` characters
(`Endpoint=a=b:51820`) is accepted by `FromWgQuick`: the parser splits at
the first `=` and keeps the remainder, `a=b:51820`, as the value. -/
theorem fromWgQuick_accepts_line_with_two_equals :
    wgcfg.FromWgQuick envK inpDoubleEq ['t'] = .ok cfgDoubleEq ∧
    ("Endpoint=a=b:51820").toList.count '=' = 2 :=
  ⟨by decide, by decide⟩

/-- C8 (amended): inside a section, a line with no `=` at all is a parse
error; the input below places an arbitrary such line (comment-free,
trimmed, not a section header) after an `[interface]` header. -/
theorem fromWgQuick_line_without_equals_rejected (env : Env) (name l : GoStr)
    (hvalid : env.tunnelNameIsValid name = true)
    (hnl : '\n' ∉ l) (hpound : '#' ∉ l) (htrim : trimSpace l = l) (hne : l ≠ [])
    (hni : toLowerStr l ≠ ("[interface]").toList)
    (hnp : toLowerStr l ≠ ("[peer]").toList)
    (heq : '=' ∉ l) :
    wgcfg.FromWgQuick env (("[interface]").toList ++ '\n' :: l) name =
      .error ⟨"Invalid config key is missing an equals separator".toList, l⟩ := by
  rw [wgcfg.FromWgQuick, if_neg (by simpa using hvalid)]
  have hlines : splitOnChar '\n' (("[interface]").toList ++ '\n' :: l) =
      [("[interface]").toList, l] := by
    rw [splitOnChar_append_cons '\n' (("[interface]").toList) (by decide) l,
      splitOnChar_not_mem '\n' l hnl]
  rw [hlines]
  have hstep1 : wgcfg.fromWgQuickLoop env [("[interface]").toList, l] .notInASection
      { Name := name } false none =
      wgcfg.fromWgQuickLoop env [l] .inInterfaceSection { Name := name } false none := rfl
  rw [hstep1, wgcfg.fromWgQuickLoop]
  have hline : trimSpace (l.takeWhile (fun a => a ≠ '#')) = l := by
    rw [takeWhile_ne_of_not_mem '#' l hpound, htrim]
  rw [hline]
  rw [if_neg (by simpa using List.length_eq_zero.not.mpr hne)]
  rw [if_neg hni, if_neg hnp]
  rw [if_neg (by simp : ¬ (wgcfg.ParserState.inInterfaceSection = wgcfg.ParserState.notInASection))]
  rw [indexOfChar_eq_none_of_not_mem '=' l heq]

/-- Witness for C8's amended theorem at the concrete line `foo`. -/
theorem fromWgQuick_line_without_equals_rejected_witness :
    wgcfg.FromWgQuick envK (("[interface]").toList ++ '\n' :: ("foo").toList) ['t'] =
      .error ⟨"Invalid config key is missing an equals separator".toList, ("foo").toList⟩ :=
  fromWgQuick_line_without_equals_rejected envK ['t'] (("foo").toList)
    (by decide) (by decide) (by decide) (by decide) (by decide) (by decide) (by decide)
    (by decide)

theorem handleInterfaceKey_private_key (env : Env) (conf : wgcfg.Config) (sawPK : Bool)
    (key val : GoStr) (conf' : wgcfg.Config) (sawPK' : Bool)
    (hparse : ∀ v k, env.parseKey v = .ok k → Key.IsZero k = false)
    (hinv : sawPK = true → Key.IsZero conf.PrivateKey = false)
    (h : wgcfg.handleInterfaceKey env conf sawPK key val = .ok (conf', sawPK')) :
    sawPK' = true → Key.IsZero conf'.PrivateKey = false := by
  rw [wgcfg.handleInterfaceKey] at h
  split_ifs at h with h1 h2 h3 h4 h5
  · cases hpk : env.parseKey val with
    | error e => rw [hpk] at h; cases h
    | ok k =>
      rw [hpk] at h
      cases h
      intro _
      exact hparse val k hpk
  · cases hp : wgcfg.parsePort val with
    | error e => rw [hp] at h; cases h
    | ok p => rw [hp] at h; cases h; exact hinv
  · cases hm : wgcfg.parseMTU val with
    | error e => rw [hm] at h; cases h
    | ok m => rw [hm] at h; cases h; exact hinv
  · cases hs : wgcfg.splitList val with
    | error e => rw [hs] at h; cases h
    | ok addresses =>
      rw [hs] at h
      dsimp only at h
      cases hc : wgcfg.parseCidrList env addresses with
      | error e => rw [hc] at h; cases h
      | ok as => rw [hc] at h; cases h; exact hinv
  · cases hs : wgcfg.splitList val with
    | error e => rw [hs] at h; cases h
    | ok addresses =>
      rw [hs] at h
      dsimp only at h
      cases hc : wgcfg.parseIPList env addresses with
      | error e => rw [hc] at h; cases h
      | ok ips => rw [hc] at h; cases h; exact hinv

theorem maybeAddPeer_private_key (conf : wgcfg.Config) (peer : Option wgcfg.Peer) :
    (conf.maybeAddPeer peer).PrivateKey = conf.PrivateKey := by
  cases peer <;> rfl

theorem fromWgQuickLoop_private_key (env : Env)
    (hparse : ∀ v k, env.parseKey v = .ok k → Key.IsZero k = false) (lines : List GoStr) :
    ∀ st conf sawPK peer conf' sawPK' peer',
    (sawPK = true → Key.IsZero conf.PrivateKey = false) →
    wgcfg.fromWgQuickLoop env lines st conf sawPK peer = .ok (conf', sawPK', peer') →
    (sawPK' = true → Key.IsZero conf'.PrivateKey = false) := by
  induction lines with
  | nil =>
    intro st conf sawPK peer conf' sawPK' peer' hinv h
    rw [wgcfg.fromWgQuickLoop] at h
    cases h
    exact hinv
  | cons rawLine rest ih =>
    intro st conf sawPK peer conf' sawPK' peer' hinv h
    rw [wgcfg.fromWgQuickLoop] at h
    by_cases hempty : (trimSpace (rawLine.takeWhile (fun a => a ≠ '#'))).length = 0
    · rw [if_pos hempty] at h
      exact ih st conf sawPK peer conf' sawPK' peer' hinv h
    · rw [if_neg hempty] at h
      by_cases hif : toLowerStr (trimSpace (rawLine.takeWhile (fun a => a ≠ '#'))) =
          ("[interface]").toList
      · rw [if_pos hif] at h
        refine ih _ _ sawPK _ conf' sawPK' peer' ?_ h
        rw [maybeAddPeer_private_key]
        exact hinv
      · rw [if_neg hif] at h
        by_cases hpf : toLowerStr (trimSpace (rawLine.takeWhile (fun a => a ≠ '#'))) =
            ("[peer]").toList
        · rw [if_pos hpf] at h
          refine ih _ _ sawPK _ conf' sawPK' peer' ?_ h
          rw [maybeAddPeer_private_key]
          exact hinv
        · rw [if_neg hpf] at h
          by_cases hsec : st = wgcfg.ParserState.notInASection
          · rw [if_pos hsec] at h
            cases h
          · rw [if_neg hsec] at h
            cases hidx : indexOfChar '=' (trimSpace (rawLine.takeWhile (fun a => a ≠ '#'))) with
            | none => rw [hidx] at h; cases h
            | some equals =>
              rw [hidx] at h
              dsimp only at h
              by_cases hval : (trimSpace ((trimSpace (rawLine.takeWhile
                  (fun a => a ≠ '#'))).drop (equals + 1))).length = 0
              · rw [if_pos hval] at h
                cases h
              · rw [if_neg hval] at h
                by_cases hist : st = wgcfg.ParserState.inInterfaceSection
                · rw [if_pos hist] at h
                  cases hik : wgcfg.handleInterfaceKey env conf sawPK
                      (trimSpace ((toLowerStr (trimSpace (rawLine.takeWhile
                        (fun a => a ≠ '#')))).take equals))
                      (trimSpace ((trimSpace (rawLine.takeWhile
                        (fun a => a ≠ '#'))).drop (equals + 1))) with
                  | error e => rw [hik] at h; cases h
                  | ok res =>
                    obtain ⟨confM, sawM⟩ := res
                    rw [hik] at h
                    dsimp only at h
                    exact ih st confM sawM peer conf' sawPK' peer'
                      (handleInterfaceKey_private_key env conf sawPK _ _ confM sawM
                        hparse hinv hik) h
                · rw [if_neg hist] at h
                  cases peer with
                  | none => cases h
                  | some p =>
                    dsimp only at h
                    cases hpk : wgcfg.handlePeerQuickKey env p
                        (trimSpace ((toLowerStr (trimSpace (rawLine.takeWhile
                          (fun a => a ≠ '#')))).take equals))
                        (trimSpace ((trimSpace (rawLine.takeWhile
                          (fun a => a ≠ '#'))).drop (equals + 1))) with
                    | error e => rw [hpk] at h; cases h
                    | ok p' =>
                      rw [hpk] at h
                      exact ih st conf sawPK (some p') conf' sawPK' peer' hinv h

/-- C2 (amended): `FromWgQuick` fails unless some `privatekey` line was
seen, and the accepted private key always comes from the key decoder, so
whenever the decoder never yields the zero key the accepted `Config` has
a non-zero private key. (`FromUAPI` enforces no such requirement.) -/
theorem fromWgQuick_private_key_required (env : Env) (s name : GoStr)
    (cfg : wgcfg.Config)
    (hparse : ∀ v k, env.parseKey v = .ok k → Key.IsZero k = false)
    (h : wgcfg.FromWgQuick env s name = .ok cfg) :
    Key.IsZero cfg.PrivateKey = false := by
  rw [wgcfg.FromWgQuick] at h
  by_cases hname : env.tunnelNameIsValid name = true
  · rw [if_neg (by simpa using hname)] at h
    cases hloop : wgcfg.fromWgQuickLoop env (splitOnChar '\n' s) .notInASection
        { Name := name } false none with
    | error e => rw [hloop] at h; cases h
    | ok res =>
      obtain ⟨conf, sawPK, peer⟩ := res
      rw [hloop] at h
      dsimp only at h
      by_cases hsaw : sawPK = true
      · rw [if_neg (by simpa using hsaw)] at h
        by_cases hany : (conf.maybeAddPeer peer).Peers.any (fun p => p.PublicKey.IsZero) = true
        · rw [if_pos hany] at h
          cases h
        · rw [if_neg hany] at h
          cases h
          have := fromWgQuickLoop_private_key env hparse (splitOnChar '\n' s)
            .notInASection { Name := name } false none conf sawPK peer
            (by intro hfalse; cases hfalse) hloop hsaw
          rw [maybeAddPeer_private_key]
          exact this
      · rw [if_pos (by simpa using hsaw)] at h
        cases h
  · rw [if_pos (by simpa using hname)] at h
    cases h

/-- Witness for C2's amended theorem: a concrete accepted parse under a
key decoder that only produces the non-zero key `kNZ`. -/
theorem fromWgQuick_private_key_required_witness :
    Key.IsZero ({ Name := ['t'], PrivateKey := kNZ } : wgcfg.Config).PrivateKey = false :=
  fromWgQuick_private_key_required envK (("[Interface]\nPrivateKey=K").toList) ['t']
    { Name := ['t'], PrivateKey := kNZ }
    (fun v k hvk => by
      simp only [envK] at hvk
      split at hvk
      · cases hvk
        decide
      · cases hvk)
    (by decide)

/-- C9: `ToUAPI` emits exactly the device header — `private_key`, then
`listen_port` only when the port is greater than 0, then
`replace_peers=true` — followed, for each peer in the peer sequence's
order, by that peer's block: `public_key`, `protocol_version=1`,
`replace_allowed_ips=true`, one `allowed_ip` line per route, a single
`endpoint=` line joining every resolved endpoint with commas, and last
the `persistent_keepalive_interval` line — so in every peer block the
endpoint line precedes the keepalive line (see `uapiPeerBlock` and
`uapiDeviceHeader` for the explicit orders). -/
theorem toUAPI_emits_lines_in_order (env : Env) (conf : wgcfg.Config) :
    wgcfg.ToUAPI env conf =
      match wgcfg.uapiPeerBlocks env conf.Peers with
      | .error e => .error e
      | .ok body => .ok (wgcfg.uapiDeviceHeader conf ++ body) :=
  wgcfg.toUAPI_shape env conf

/-- C3 (counterexample): decoding a `ToUAPI` encoding with `FromUAPI`
fails for every configuration, because the encoder unconditionally emits
`replace_peers=true`, which the decoder rejects as an unexpected key
(shown here on a configuration with no peers, which vacuously satisfies
the claim's pre-resolved-endpoints premise). -/
theorem toUAPI_fromUAPI_roundtrip_fails :
    ∃ out, wgcfg.ToUAPI envNull ({} : wgcfg.Config) = .ok out ∧
      (wgcfg.FromUAPI envNull out).isOk = false :=
  ⟨_, rfl, by decide⟩

/-! ### The stripped round-trip (C3, amended) -/

/-- Removal of the two structural `replace_*` marker lines that `ToUAPI`
emits for the device-push direction and `FromUAPI` does not accept. -/
def stripReplaceLines (lines : List GoStr) : List GoStr :=
  lines.filter (fun l =>
    ¬ (l = ("replace_peers=true").toList ∨ l = ("replace_allowed_ips=true").toList))

/-- A pre-resolved literal `address:port` endpoint entry: it parses, its
host resolves, the selected address is the host itself, and re-joining
the parts reproduces the entry verbatim. -/
def IsLiteralEndpoint (env : Env) (e : GoStr) : Prop :=
  ∃ host pt ips ip, wgcfg.parseEndpoint env e = .ok (host, pt) ∧
    env.lookupIP host = .ok ips ∧ wgcfg.pickIP ips = some ip ∧
    joinHostPort ip.str (natToDec pt) = e

/-- The peers for which the stripped round-trip is exact: well-formed
32-byte public key, zero preshared key (`ToUAPI` never emits preshared
keys), in-range keepalive, and a non-empty list of pre-resolved literal
endpoint entries free of `=` and newline; allowed-IP prefixes print and
re-parse exactly. -/
def RoundTrippablePeer (env : Env) (p : wgcfg.Peer) : Prop :=
  p.PublicKey.length = 32 ∧ (∀ b ∈ p.PublicKey, b < 256) ∧
  p.PresharedKey = zeroKey ∧
  p.PersistentKeepalive < 65536 ∧
  p.Endpoints ≠ [] ∧ '\n' ∉ p.Endpoints ∧ '=' ∉ p.Endpoints ∧
  (∀ e ∈ splitOnChar ',' p.Endpoints, IsLiteralEndpoint env e) ∧
  (∀ a ∈ p.AllowedIPs, env.parseCidr (env.printCidr a) = .ok a ∧
    '\n' ∉ env.printCidr a ∧ '=' ∉ env.printCidr a)

theorem resolveEndpointRep_literal (env : Env) (e : GoStr) (h : IsLiteralEndpoint env e) :
    wgcfg.resolveEndpointRep env e = .ok e := by
  obtain ⟨host, pt, ips, ip, hpe, hlip, hpick, hjoin⟩ := h
  rw [wgcfg.resolveEndpointRep, hpe]
  try dsimp only
  rw [hlip]
  try dsimp only
  rw [hpick]
  try dsimp only
  rw [hjoin]

theorem resolveReps_literal (env : Env) (l : List GoStr)
    (h : ∀ e ∈ l, IsLiteralEndpoint env e) : wgcfg.resolveReps env l = .ok l := by
  induction l with
  | nil => rfl
  | cons e rest ih =>
    rw [wgcfg.resolveReps, resolveEndpointRep_literal env e (h e (List.mem_cons_self e rest)),
      ih (fun x hx => h x (List.mem_cons_of_mem e hx))]

theorem validateEndpointsList_literal (env : Env) (l : List GoStr)
    (h : ∀ e ∈ l, IsLiteralEndpoint env e) :
    wgcfg.validateEndpointsList env l = .ok () := by
  induction l with
  | nil => rfl
  | cons e rest ih =>
    obtain ⟨host, pt, ips, ip, hpe, _, _, _⟩ := h e (List.mem_cons_self e rest)
    rw [wgcfg.validateEndpointsList, hpe]
    exact ih (fun x hx => h x (List.mem_cons_of_mem e hx))

theorem splitOnChar_joinChar (c : Char) (ls : List GoStr) (hne : ls ≠ [])
    (h : ∀ l ∈ ls, c ∉ l) : splitOnChar c (joinChar c ls) = ls := by
  induction ls with
  | nil => cases hne rfl
  | cons x rest ih =>
    cases rest with
    | nil =>
      rw [joinChar]
      exact splitOnChar_not_mem c x (h x (List.mem_cons_self x []))
    | cons y ys =>
      rw [joinChar, splitOnChar_append_cons c x (h x (List.mem_cons_self x (y :: ys))),
        ih (by simp) (fun l hl => h l (List.mem_cons_of_mem x hl))]

theorem splitOnChar_units (c : Char) (ls : List GoStr) (h : ∀ l ∈ ls, c ∉ l) :
    splitOnChar c ((ls.map (fun l => l ++ [c])).flatten) = ls ++ [[]] := by
  induction ls with
  | nil => simp [splitOnChar]
  | cons x rest ih =>
    rw [List.map_cons, List.flatten_cons, List.append_assoc,
      show ([c] : GoStr) ++ (rest.map (fun l => l ++ [c])).flatten =
        c :: (rest.map (fun l => l ++ [c])).flatten from rfl,
      splitOnChar_append_cons c x (h x (List.mem_cons_self x rest)),
      ih (fun l hl => h l (List.mem_cons_of_mem x hl))]
    rfl

/-- A `key=value` line. -/
def kvLine (K v : GoStr) : GoStr := K ++ '=' :: v

/-- The header lines of the `ToUAPI` output, as a list of lines. -/
def uapiHeaderLines (conf : wgcfg.Config) : List GoStr :=
  [kvLine (("private_key").toList) (hexEncode conf.PrivateKey)] ++
  (if conf.ListenPort > 0 then [kvLine (("listen_port").toList) (natToDec conf.ListenPort)]
   else []) ++
  [("replace_peers=true").toList]

/-- The lines of one peer's block of the `ToUAPI` output (for a peer
with a non-empty literal endpoint list). -/
def uapiBlockLines (env : Env) (p : wgcfg.Peer) : List GoStr :=
  [kvLine (("public_key").toList) (hexEncode p.PublicKey),
   ("protocol_version=1").toList, ("replace_allowed_ips=true").toList] ++
  p.AllowedIPs.map (fun a => kvLine (("allowed_ip").toList) (env.printCidr a)) ++
  [kvLine (("endpoint").toList) p.Endpoints,
   kvLine (("persistent_keepalive_interval").toList) (natToDec p.PersistentKeepalive)]

theorem uapiDeviceHeader_lines (conf : wgcfg.Config) :
    wgcfg.uapiDeviceHeader conf =
      ((uapiHeaderLines conf).map (fun l => l ++ ['\n'])).flatten := by
  rw [wgcfg.uapiDeviceHeader, uapiHeaderLines]
  by_cases hport : conf.ListenPort > 0
  · rw [if_pos hport, if_pos hport]
    simp [kvLine, List.append_assoc]
  · rw [if_neg hport, if_neg hport]
    simp [kvLine, List.append_assoc]

theorem uapiPeerBlock_lines (env : Env) (p : wgcfg.Peer)
    (hrt : RoundTrippablePeer env p) :
    wgcfg.uapiPeerBlock env p =
      .ok (((uapiBlockLines env p).map (fun l => l ++ ['\n'])).flatten) := by
  obtain ⟨_, _, _, _, hne, _, _, hlit, _⟩ := hrt
  rw [wgcfg.uapiPeerBlock, if_neg hne,
    resolveReps_literal env (splitOnChar ',' p.Endpoints) hlit]
  try dsimp only
  rw [joinChar_splitOnChar ',' p.Endpoints, uapiBlockLines]
  simp only [List.map_append, List.map_cons, List.map_nil, List.flatten_append,
    List.flatten_cons, List.flatten_nil, List.map_map, kvLine]
  simp only [Function.comp_def, List.cons_append]
  simp [List.append_assoc, List.cons_append]

theorem uapiPeerBlocks_lines (env : Env) (ps : List wgcfg.Peer)
    (hps : ∀ p ∈ ps, RoundTrippablePeer env p) :
    wgcfg.uapiPeerBlocks env ps =
      .ok (((ps.flatMap (uapiBlockLines env)).map (fun l => l ++ ['\n'])).flatten) := by
  induction ps with
  | nil => rfl
  | cons p rest ih =>
    rw [wgcfg.uapiPeerBlocks, uapiPeerBlock_lines env p (hps p (List.mem_cons_self p rest))]
    try dsimp only
    rw [ih (fun q hq => hps q (List.mem_cons_of_mem p hq))]
    try dsimp only
    rw [List.flatMap_cons, List.map_append, List.flatten_append]

theorem natToDec_not_mem (c : Char) (n : Nat) (hc : isDigitChar c = false) :
    c ∉ natToDec n := by
  intro hmem
  have := List.all_eq_true.mp (natToDec_all_digits n) c hmem
  rw [hc] at this
  cases this

theorem hexEncode_not_mem (c : Char) (bs : List Nat) (hbs : ∀ b ∈ bs, b < 256)
    (hc : hexVal c = none) : c ∉ hexEncode bs :=
  fun hm => (hexEncode_all_hex bs hbs c hm) hc

theorem cons_ne_cons (c d : Char) (x y : GoStr) (hcd : c ≠ d) : c :: x ≠ d :: y := by
  intro heq
  injection heq with h1 _
  exact hcd h1

/-- The header lines with the `replace_peers=true` marker removed. -/
def strippedHeaderLines (conf : wgcfg.Config) : List GoStr :=
  [kvLine (("private_key").toList) (hexEncode conf.PrivateKey)] ++
  (if conf.ListenPort > 0 then [kvLine (("listen_port").toList) (natToDec conf.ListenPort)]
   else [])

/-- A peer's block lines with the `replace_allowed_ips=true` marker
removed. -/
def strippedBlockLines (env : Env) (p : wgcfg.Peer) : List GoStr :=
  [kvLine (("public_key").toList) (hexEncode p.PublicKey), ("protocol_version=1").toList] ++
  p.AllowedIPs.map (fun a => kvLine (("allowed_ip").toList) (env.printCidr a)) ++
  [kvLine (("endpoint").toList) p.Endpoints,
   kvLine (("persistent_keepalive_interval").toList) (natToDec p.PersistentKeepalive)]

theorem kvLine_not_mem (c : Char) (K v : GoStr) (hcK : c ∉ K) (hce : c ≠ '=')
    (hcv : c ∉ v) : c ∉ kvLine K v := by
  intro hmem
  rw [kvLine] at hmem
  rcases List.mem_append.mp hmem with h | h
  · exact hcK h
  · rcases List.mem_cons.mp h with h | h
    · exact hce h
    · exact hcv h

theorem uapiHeaderLines_no_newline (conf : wgcfg.Config)
    (hpk : ∀ b ∈ conf.PrivateKey, b < 256) :
    ∀ l ∈ uapiHeaderLines conf, '\n' ∉ l := by
  intro l hl
  rw [uapiHeaderLines] at hl
  rcases List.mem_append.mp hl with h | h
  · rcases List.mem_append.mp h with h | h
    · rcases List.mem_cons.mp h with h | h
      · subst h
        exact kvLine_not_mem '\n' _ _ (by decide) (by decide)
          (hexEncode_not_mem '\n' conf.PrivateKey hpk (by decide))
      · cases h
    · by_cases hport : conf.ListenPort > 0
      · rw [if_pos hport] at h
        rcases List.mem_cons.mp h with h | h
        · subst h
          exact kvLine_not_mem '\n' _ _ (by decide) (by decide)
            (natToDec_not_mem '\n' conf.ListenPort (by decide))
        · cases h
      · rw [if_neg hport] at h
        cases h
  · rcases List.mem_cons.mp h with h | h
    · subst h
      decide
    · cases h

theorem uapiBlockLines_no_newline (env : Env) (p : wgcfg.Peer)
    (hrt : RoundTrippablePeer env p) :
    ∀ l ∈ uapiBlockLines env p, '\n' ∉ l := by
  obtain ⟨_, hpkB, _, _, _, hnlE, _, _, hcidr⟩ := hrt
  intro l hl
  rw [uapiBlockLines] at hl
  rcases List.mem_append.mp hl with h | h
  · rcases List.mem_append.mp h with h | h
    · rcases List.mem_cons.mp h with h | h
      · subst h
        exact kvLine_not_mem '\n' _ _ (by decide) (by decide)
          (hexEncode_not_mem '\n' p.PublicKey hpkB (by decide))
      · rcases List.mem_cons.mp h with h | h
        · subst h; decide
        · rcases List.mem_cons.mp h with h | h
          · subst h; decide
          · cases h
    · obtain ⟨a, ha, hla⟩ := List.mem_map.mp h
      subst hla
      exact kvLine_not_mem '\n' _ _ (by decide) (by decide) (hcidr a ha).2.1
  · rcases List.mem_cons.mp h with h | h
    · subst h
      exact kvLine_not_mem '\n' _ _ (by decide) (by decide) hnlE
    · rcases List.mem_cons.mp h with h | h
      · subst h
        exact kvLine_not_mem '\n' _ _ (by decide) (by decide)
          (natToDec_not_mem '\n' p.PersistentKeepalive (by decide))
      · cases h

theorem toUAPI_out_lines (env : Env) (conf : wgcfg.Config) (out : GoStr)
    (hpkB : ∀ b ∈ conf.PrivateKey, b < 256)
    (hps : ∀ p ∈ conf.Peers, RoundTrippablePeer env p)
    (hout : wgcfg.ToUAPI env conf = .ok out) :
    splitOnChar '\n' out =
      uapiHeaderLines conf ++ conf.Peers.flatMap (uapiBlockLines env) ++ [[]] := by
  rw [wgcfg.toUAPI_shape, uapiPeerBlocks_lines env conf.Peers hps] at hout
  dsimp only at hout
  rw [Except.ok.injEq] at hout
  subst hout
  rw [uapiDeviceHeader_lines, ← List.flatten_append, ← List.map_append]
  rw [show (uapiHeaderLines conf ++ conf.Peers.flatMap (uapiBlockLines env) ++ [[]] :
      List GoStr) = (uapiHeaderLines conf ++ conf.Peers.flatMap (uapiBlockLines env)) ++ [[]]
    from rfl]
  refine splitOnChar_units '\n' _ ?_
  intro l hl
  rcases List.mem_append.mp hl with h | h
  · exact uapiHeaderLines_no_newline conf hpkB l h
  · obtain ⟨p, hp, hlp⟩ := List.mem_flatMap.mp h
    exact uapiBlockLines_no_newline env p (hps p hp) l hlp

theorem filter_flatMap {α β : Type} (l : List α) (f : α → List β) (q : β → Bool) :
    (l.flatMap f).filter q = l.flatMap (fun a => (f a).filter q) := by
  induction l with
  | nil => rfl
  | cons a rest ih =>
    rw [List.flatMap_cons, List.flatMap_cons, List.filter_append, ih]

theorem stripReplaceLines_keep (l : GoStr)
    (h1 : l ≠ ("replace_peers=true").toList)
    (h2 : l ≠ ("replace_allowed_ips=true").toList) :
    (decide (¬ (l = ("replace_peers=true").toList ∨
      l = ("replace_allowed_ips=true").toList))) = true :=
  decide_eq_true (fun hor => hor.elim h1 h2)

theorem kvLine_head_ne (c : Char) (K v rest : GoStr) (d : Char) (hK : K = c :: rest)
    (hcd : c ≠ d) : ∀ w : GoStr, kvLine K v ≠ d :: w := by
  intro w
  rw [kvLine, hK]
  exact cons_ne_cons c d _ w hcd

theorem strip_header_lines (conf : wgcfg.Config) :
    (uapiHeaderLines conf).filter (fun l =>
      ¬ (l = ("replace_peers=true").toList ∨ l = ("replace_allowed_ips=true").toList)) =
      strippedHeaderLines conf := by
  rw [uapiHeaderLines, strippedHeaderLines]
  have hpkkeep := stripReplaceLines_keep
    (kvLine (("private_key").toList) (hexEncode conf.PrivateKey))
    (kvLine_head_ne 'p' _ _ _ 'r' rfl (by decide) _)
    (kvLine_head_ne 'p' _ _ _ 'r' rfl (by decide) _)
  have hrpdrop : (decide (¬ ((("replace_peers=true").toList : GoStr) =
      ("replace_peers=true").toList ∨ (("replace_peers=true").toList : GoStr) =
      ("replace_allowed_ips=true").toList))) = false := by decide
  by_cases hport : conf.ListenPort > 0
  · rw [if_pos hport]
    have hptkeep := stripReplaceLines_keep
      (kvLine (("listen_port").toList) (natToDec conf.ListenPort))
      (kvLine_head_ne 'l' _ _ _ 'r' rfl (by decide) _)
      (kvLine_head_ne 'l' _ _ _ 'r' rfl (by decide) _)
    simp only [List.cons_append, List.nil_append]
    rw [List.filter_cons]
    try dsimp only
    rw [hpkkeep, if_pos rfl, List.filter_cons]
    try dsimp only
    rw [hptkeep, if_pos rfl, List.filter_cons]
    try dsimp only
    rw [hrpdrop]
    simp
  · rw [if_neg hport]
    simp only [List.cons_append, List.nil_append]
    rw [List.filter_cons]
    try dsimp only
    rw [hpkkeep, if_pos rfl, List.filter_cons]
    try dsimp only
    rw [hrpdrop]
    simp

theorem strip_block_lines (env : Env) (p : wgcfg.Peer) :
    (uapiBlockLines env p).filter (fun l =>
      ¬ (l = ("replace_peers=true").toList ∨ l = ("replace_allowed_ips=true").toList)) =
      strippedBlockLines env p := by
  rw [uapiBlockLines, strippedBlockLines]
  have hpub := stripReplaceLines_keep
    (kvLine (("public_key").toList) (hexEncode p.PublicKey))
    (kvLine_head_ne 'p' _ _ _ 'r' rfl (by decide) _)
    (kvLine_head_ne 'p' _ _ _ 'r' rfl (by decide) _)
  have hproto : (decide (¬ ((("protocol_version=1").toList : GoStr) =
      ("replace_peers=true").toList ∨ (("protocol_version=1").toList : GoStr) =
      ("replace_allowed_ips=true").toList))) = true := by decide
  have hraidrop : (decide (¬ ((("replace_allowed_ips=true").toList : GoStr) =
      ("replace_peers=true").toList ∨ (("replace_allowed_ips=true").toList : GoStr) =
      ("replace_allowed_ips=true").toList))) = false := by decide
  have hep := stripReplaceLines_keep (kvLine (("endpoint").toList) p.Endpoints)
    (kvLine_head_ne 'e' _ _ _ 'r' rfl (by decide) _)
    (kvLine_head_ne 'e' _ _ _ 'r' rfl (by decide) _)
  have hka := stripReplaceLines_keep
    (kvLine (("persistent_keepalive_interval").toList) (natToDec p.PersistentKeepalive))
    (kvLine_head_ne 'p' _ _ _ 'r' rfl (by decide) _)
    (kvLine_head_ne 'p' _ _ _ 'r' rfl (by decide) _)
  have hal : (p.AllowedIPs.map (fun a => kvLine (("allowed_ip").toList)
      (env.printCidr a))).filter (fun l =>
      decide (¬ (l = ("replace_peers=true").toList ∨
        l = ("replace_allowed_ips=true").toList))) =
      p.AllowedIPs.map (fun a => kvLine (("allowed_ip").toList) (env.printCidr a)) := by
    refine List.filter_eq_self.mpr ?_
    intro x hx
    obtain ⟨a, _, hxa⟩ := List.mem_map.mp hx
    subst hxa
    exact stripReplaceLines_keep _
      (kvLine_head_ne 'a' _ _ _ 'r' rfl (by decide) _)
      (kvLine_head_ne 'a' _ _ _ 'r' rfl (by decide) _)
  simp only [List.cons_append, List.nil_append]
  rw [List.filter_cons]
  try dsimp only
  rw [hpub, if_pos rfl, List.filter_cons]
  try dsimp only
  rw [hproto, if_pos rfl, List.filter_cons]
  try dsimp only
  rw [hraidrop]
  simp only [Bool.false_eq_true, if_false]
  rw [List.filter_append, hal, List.filter_cons]
  try dsimp only
  rw [hep, if_pos rfl, List.filter_cons]
  try dsimp only
  rw [hka, if_pos rfl]
  simp

theorem strip_all_lines (env : Env) (conf : wgcfg.Config) :
    stripReplaceLines (uapiHeaderLines conf ++ conf.Peers.flatMap (uapiBlockLines env) ++ [[]]) =
      strippedHeaderLines conf ++ conf.Peers.flatMap (strippedBlockLines env) ++ [[]] := by
  rw [stripReplaceLines, List.filter_append, List.filter_append, strip_header_lines,
    filter_flatMap]
  have hfun : (fun p => (uapiBlockLines env p).filter (fun l =>
      ¬ (l = ("replace_peers=true").toList ∨ l = ("replace_allowed_ips=true").toList))) =
      strippedBlockLines env := by
    funext p
    exact strip_block_lines env p
  rw [hfun]
  have hnil : (([[]] : List GoStr)).filter (fun l =>
      ¬ (l = ("replace_peers=true").toList ∨ l = ("replace_allowed_ips=true").toList)) =
      [[]] := by decide
  rw [hnil]

theorem splitOnChar_kv (K v : GoStr) (hK : '=' ∉ K) (hv : '=' ∉ v) :
    splitOnChar '=' (kvLine K v) = [K, v] := by
  rw [kvLine, splitOnChar_append_cons '=' K hK, splitOnChar_not_mem '=' v hv]

theorem kvLine_length_ne_zero (K v : GoStr) : ¬ ((kvLine K v).length = 0) := by
  simp [kvLine, List.length_append]

theorem updateLastPeer_append (f : wgcfg.Peer → wgcfg.Peer) (acc : List wgcfg.Peer)
    (cur : wgcfg.Peer) : wgcfg.updateLastPeer f (acc ++ [cur]) = acc ++ [f cur] := by
  induction acc with
  | nil => rfl
  | cons a rest ih =>
    cases rest with
    | nil => rfl
    | cons b bs =>
      show a :: wgcfg.updateLastPeer f ((b :: bs) ++ [cur]) = a :: ((b :: bs) ++ [f cur])
      rw [ih]

theorem fromUAPILoop_allowed (env : Env) (as : List Cidr)
    (has : ∀ a ∈ as, env.parseCidr (env.printCidr a) = .ok a ∧ '=' ∉ env.printCidr a) :
    ∀ (cfg : wgcfg.Config) (acc : List wgcfg.Peer) (cur : wgcfg.Peer) (rest : List GoStr),
    cfg.Peers = acc ++ [cur] →
    wgcfg.fromUAPILoop env ((as.map (fun a => kvLine (("allowed_ip").toList)
        (env.printCidr a))) ++ rest) cfg false =
      wgcfg.fromUAPILoop env rest
        {cfg with Peers := acc ++ [{cur with AllowedIPs := cur.AllowedIPs ++ as}]} false := by
  induction as with
  | nil =>
    intro cfg acc cur rest hPeers
    simp only [List.map_nil, List.nil_append]
    have hcur : ({cur with AllowedIPs := cur.AllowedIPs ++ []} : wgcfg.Peer) = cur := by
      simp
    rw [hcur, ← hPeers]
  | cons a arest ih =>
    intro cfg acc cur rest hPeers
    have hmem := has a (List.mem_cons_self a arest)
    simp only [List.map_cons, List.cons_append]
    rw [wgcfg.fromUAPILoop]
    rw [if_neg (kvLine_length_ne_zero _ _)]
    rw [splitOnChar_kv _ _ (by decide) hmem.2]
    try dsimp only
    rw [if_neg (by decide : ¬ (("allowed_ip").toList = ("public_key").toList))]
    rw [if_neg (by simp : ¬ ((false : Bool) = true))]
    rw [wgcfg.handlePeerLine]
    rw [if_neg (by decide), if_neg (by decide), if_neg (by decide), if_pos rfl]
    rw [hmem.1]
    try dsimp only
    rw [hPeers, updateLastPeer_append]
    rw [ih (fun x hx => has x (List.mem_cons_of_mem a hx)) _ acc
      ({cur with AllowedIPs := cur.AllowedIPs ++ [a]}) rest rfl]
    have hfin : ({({cur with AllowedIPs := cur.AllowedIPs ++ [a]} : wgcfg.Peer) with
        AllowedIPs := (cur.AllowedIPs ++ [a]) ++ arest} : wgcfg.Peer) =
        {cur with AllowedIPs := cur.AllowedIPs ++ (a :: arest)} := by
      simp [List.append_assoc]
    rw [hfin]

theorem fromUAPILoop_block (env : Env) (p : wgcfg.Peer) (hrt : RoundTrippablePeer env p) :
    ∀ (cfg : wgcfg.Config) (dc : Bool) (rest : List GoStr),
    wgcfg.fromUAPILoop env (strippedBlockLines env p ++ rest) cfg dc =
      wgcfg.fromUAPILoop env rest {cfg with Peers := cfg.Peers ++ [p]} false := by
  obtain ⟨hlen, hbytes, hpsk, hkalt, hne, hnl, heqE, hlit, hcidr⟩ := hrt
  intro cfg dc rest
  rw [strippedBlockLines]
  simp only [List.cons_append, List.nil_append, List.append_assoc]
  rw [wgcfg.fromUAPILoop]
  rw [if_neg (kvLine_length_ne_zero _ _)]
  rw [splitOnChar_kv _ _ (by decide)
    (hexEncode_not_mem '=' p.PublicKey hbytes (by decide))]
  try dsimp only
  rw [if_pos rfl, wgcfg.handlePublicKeyLine, wgcfg.parseKeyHex,
    hexDecode_hexEncode p.PublicKey hbytes]
  try dsimp only
  rw [if_neg (by simp [hlen, KeySize])]
  try dsimp only
  rw [wgcfg.fromUAPILoop]
  rw [if_neg (by decide : ¬ ((("protocol_version=1").toList : GoStr).length = 0))]
  rw [show splitOnChar '=' (("protocol_version=1").toList) =
    [("protocol_version").toList, ("1").toList] from by decide]
  try dsimp only
  rw [if_neg (by decide : ¬ (("protocol_version").toList = ("public_key").toList))]
  rw [if_neg (by simp : ¬ ((false : Bool) = true))]
  rw [wgcfg.handlePeerLine]
  rw [if_neg (by decide), if_neg (by decide), if_neg (by decide), if_neg (by decide),
    if_pos rfl, if_pos rfl]
  try dsimp only
  rw [fromUAPILoop_allowed env p.AllowedIPs
    (fun a ha => ⟨(hcidr a ha).1, (hcidr a ha).2.2⟩) _ cfg.Peers
    ({ PublicKey := p.PublicKey } : wgcfg.Peer) _ rfl]
  rw [wgcfg.fromUAPILoop]
  rw [if_neg (kvLine_length_ne_zero _ _)]
  rw [splitOnChar_kv _ _ (by decide) heqE]
  try dsimp only
  rw [if_neg (by decide : ¬ (("endpoint").toList = ("public_key").toList))]
  rw [if_neg (by simp : ¬ ((false : Bool) = true))]
  rw [wgcfg.handlePeerLine]
  rw [if_neg (by decide), if_pos rfl]
  rw [wgcfg.validateEndpoints, validateEndpointsList_literal env _ hlit]
  try dsimp only
  rw [updateLastPeer_append]
  rw [wgcfg.fromUAPILoop]
  rw [if_neg (kvLine_length_ne_zero _ _)]
  rw [splitOnChar_kv _ _ (by decide)
    (natToDec_not_mem '=' p.PersistentKeepalive (by decide))]
  try dsimp only
  rw [if_neg (by decide : ¬ (("persistent_keepalive_interval").toList = ("public_key").toList))]
  rw [if_neg (by simp : ¬ ((false : Bool) = true))]
  rw [wgcfg.handlePeerLine]
  rw [if_neg (by decide), if_neg (by decide), if_pos rfl]
  rw [parseUintDec_natToDec 16 p.PersistentKeepalive hkalt]
  try dsimp only
  rw [updateLastPeer_append]
  have hfin : ({({({({ PublicKey := p.PublicKey } : wgcfg.Peer) with
      AllowedIPs := ([] : List Cidr) ++ p.AllowedIPs} : wgcfg.Peer) with
      Endpoints := p.Endpoints} : wgcfg.Peer) with
      PersistentKeepalive := p.PersistentKeepalive} : wgcfg.Peer) = p := by
    rw [← hpsk]
    simp
  rw [hfin]

theorem fromUAPILoop_blocks (env : Env) (ps : List wgcfg.Peer)
    (hps : ∀ p ∈ ps, RoundTrippablePeer env p) :
    ∀ (cfg : wgcfg.Config) (dc : Bool),
    wgcfg.fromUAPILoop env (ps.flatMap (strippedBlockLines env) ++ [[]]) cfg dc =
      .ok {cfg with Peers := cfg.Peers ++ ps} := by
  induction ps with
  | nil =>
    intro cfg dc
    show wgcfg.fromUAPILoop env [[]] cfg dc = _
    rw [wgcfg.fromUAPILoop, if_pos List.length_nil, wgcfg.fromUAPILoop]
    simp
  | cons p rest ih =>
    intro cfg dc
    rw [List.flatMap_cons, List.append_assoc,
      fromUAPILoop_block env p (hps p (List.mem_cons_self p rest)) cfg dc _,
      ih (fun q hq => hps q (List.mem_cons_of_mem p hq)) _ false]
    simp [List.append_assoc]

theorem stripped_header_sub (conf : wgcfg.Config) :
    ∀ l ∈ strippedHeaderLines conf, l ∈ uapiHeaderLines conf := by
  intro l hl
  rw [← strip_header_lines] at hl
  exact List.mem_of_mem_filter hl

theorem stripped_block_sub (env : Env) (p : wgcfg.Peer) :
    ∀ l ∈ strippedBlockLines env p, l ∈ uapiBlockLines env p := by
  intro l hl
  rw [← strip_block_lines] at hl
  exact List.mem_of_mem_filter hl

/-- C3 (amended): after deleting the two `replace_*` marker lines that
`FromUAPI` rejects, decoding a successful `ToUAPI` encoding reproduces
the private key, listen port, and the full peer records of the original
configuration, for every configuration of round-trippable peers (zero
preshared keys — `ToUAPI` never emits preshared keys — and non-empty
pre-resolved literal endpoint lists). -/
theorem uapi_round_trip_after_strip (env : Env) (conf : wgcfg.Config) (out : GoStr)
    (hlen : conf.PrivateKey.length = 32)
    (hbytes : ∀ b ∈ conf.PrivateKey, b < 256)
    (hport : conf.ListenPort < 65536)
    (hps : ∀ p ∈ conf.Peers, RoundTrippablePeer env p)
    (hout : wgcfg.ToUAPI env conf = .ok out) :
    wgcfg.FromUAPI env (joinChar '\n' (stripReplaceLines (splitOnChar '\n' out))) =
      .ok { PrivateKey := conf.PrivateKey, ListenPort := conf.ListenPort,
            Peers := conf.Peers } := by
  rw [toUAPI_out_lines env conf out hbytes hps hout, strip_all_lines]
  rw [wgcfg.FromUAPI]
  rw [splitOnChar_joinChar '\n' _ (by simp) ?hnonl]
  case hnonl =>
    intro l hl
    rcases List.mem_append.mp hl with h | h
    · rcases List.mem_append.mp h with h | h
      · exact uapiHeaderLines_no_newline conf hbytes l (stripped_header_sub conf l h)
      · obtain ⟨p, hp, hlp⟩ := List.mem_flatMap.mp h
        exact uapiBlockLines_no_newline env p (hps p hp) l (stripped_block_sub env p l hlp)
    · rcases List.mem_cons.mp h with h | h
      · subst h
        simp
      · cases h
  rw [strippedHeaderLines]
  simp only [List.cons_append, List.nil_append, List.append_assoc]
  rw [wgcfg.fromUAPILoop]
  rw [if_neg (kvLine_length_ne_zero _ _)]
  rw [splitOnChar_kv _ _ (by decide) (hexEncode_not_mem '=' conf.PrivateKey hbytes (by decide))]
  try dsimp only
  rw [if_neg (by decide : ¬ (("private_key").toList = ("public_key").toList))]
  rw [if_pos rfl, wgcfg.handleDeviceLine, if_pos rfl, wgcfg.parseKeyHex,
    hexDecode_hexEncode conf.PrivateKey hbytes]
  try dsimp only
  rw [if_neg (by simp [hlen, KeySize])]
  try dsimp only
  by_cases hp0 : conf.ListenPort > 0
  · rw [if_pos hp0]
    simp only [List.cons_append, List.nil_append]
    rw [wgcfg.fromUAPILoop]
    rw [if_neg (kvLine_length_ne_zero _ _)]
    rw [splitOnChar_kv _ _ (by decide) (natToDec_not_mem '=' conf.ListenPort (by decide))]
    try dsimp only
    rw [if_neg (by decide : ¬ (("listen_port").toList = ("public_key").toList))]
    rw [if_pos rfl, wgcfg.handleDeviceLine,
      if_neg (by decide : ¬ (("listen_port").toList = ("private_key").toList)), if_pos rfl,
      parseUintDec_natToDec 16 conf.ListenPort hport]
    try dsimp only
    rw [fromUAPILoop_blocks env conf.Peers hps _ true]
    simp
  · rw [if_neg hp0]
    simp only [List.nil_append]
    rw [fromUAPILoop_blocks env conf.Peers hps _ true]
    have hz : conf.ListenPort = 0 := by omega
    simp [hz]

/-- Environment for the concrete round-trip run: the resolver returns
the queried host itself as a single IPv4 address. -/
def env3 : Env := { envNull with lookupIP := fun h => .ok [⟨h, true⟩] }

/-- A concrete round-trippable peer: 32-byte key, literal endpoint
`1:2`, keepalive 3. -/
def peer3 : wgcfg.Peer := { PublicKey := List.replicate 32 1, Endpoints := ("1:2").toList, PersistentKeepalive := 3 }

/-- A concrete configuration for the round-trip witness. -/
def conf3 : wgcfg.Config := { PrivateKey := List.replicate 32 2, ListenPort := 4, Peers := [peer3] }

/-- The UAPI encoding of `conf3` under `env3`. -/
def out3 : GoStr := ("private_key=0202020202020202020202020202020202020202020202020202020202020202\nlisten_port=4\nreplace_peers=true\npublic_key=0101010101010101010101010101010101010101010101010101010101010101\nprotocol_version=1\nreplace_allowed_ips=true\nendpoint=1:2\npersistent_keepalive_interval=3\n").toList

set_option maxRecDepth 40000 in
theorem uapi_round_trip_after_strip_witness :
    wgcfg.FromUAPI env3 (joinChar '\n' (stripReplaceLines (splitOnChar '\n' out3))) =
      .ok { PrivateKey := conf3.PrivateKey, ListenPort := conf3.ListenPort,
            Peers := conf3.Peers } := by
  have h2 : natToDec 2 = ['2'] := by rw [natToDec]; decide
  have h3 : natToDec 3 = ['3'] := by rw [natToDec]; decide
  have h4 : natToDec 4 = ['4'] := by rw [natToDec]; decide
  have hlit : IsLiteralEndpoint env3 (("1:2").toList) :=
    ⟨['1'], 2, [⟨['1'], true⟩], ⟨['1'], true⟩, by decide, rfl, rfl, by rw [h2]; decide⟩
  refine uapi_round_trip_after_strip env3 conf3 out3 (by decide) (by decide) (by decide)
    ?_ ?_
  · intro p hp
    have hp3 : p = peer3 := by simpa [conf3] using hp
    subst hp3
    refine ⟨by decide, by decide, by decide, by decide, by decide, by decide, by decide, ?_, by simp [peer3]⟩
    intro e he
    have he3 : e = ("1:2").toList := by simpa [peer3, splitOnChar] using he
    subst he3
    exact hlit
  · show wgcfg.ToUAPI env3 conf3 = Except.ok out3
    rw [wgcfg.ToUAPI]
    dsimp only [conf3, peer3]
    rw [if_pos (by decide : 4 > 0), h4, wgcfg.toUAPIPeersLoop]
    dsimp only
    rw [if_neg (by decide : ¬ (List.length ([] : List Cidr) > 0))]
    rw [if_neg (by decide : ¬ (("1:2").toList = []))]
    rw [show splitOnChar ',' (("1:2").toList) = [("1:2").toList] from rfl]
    rw [wgcfg.repsLoop, resolveEndpointRep_literal env3 (("1:2").toList) hlit]
    try dsimp only
    rw [wgcfg.repsLoop, h3]
    decide

end WgProof
